import Mathlib

/-!
Mismo: round resolution and session state machine.

A shallow embedding of the three variants of the game found in the repository:

* `game`    : package `game` (`game/game.go`, `game/player.go`)
* `wsmain`  : the WebSocket server (`main.go`)
* `server`  : the polling HTTP server (`server/server.go`)

Conventions of the embedding.

* A Go `map[string]*Player` is a `List Player`; the key of an entry is the `ID`
  field of the player stored there (every insertion in the source is
  `Players[player.ID] = player`).  A list is a map when its IDs are pairwise
  different (`WF`).  The order of the list is the order in which `range`
  visits the map.
* Each map entry points to its own `Player`; writing through the pointer is
  rewriting the entry with that ID.
* `Lives` is a Go `int`, embedded as `Int`.  The only arithmetic on it is `--`
  on a value that is positive (package `game`, `main.go`) or that started at 7
  and is guarded by the `Eliminated` flag (`server.go`), so wrap-around at
  `-2^63` is never reached from these values.
* A mutex is not modelled: every operation runs inside one critical section.
-/

namespace game

/-- The type `GameState` of `game.go` with its three constants. -/
inductive GameState where
  | Waiting
  | Playing
  | Finished
deriving DecidableEq, Repr

/-- The struct `Player` of `player.go`; `Number` is `*uint64`, nil being `none`. -/
structure Player where
  ID : String
  Name : String
  Lives : Int
  Number : Option Nat
  IsHost : Bool
  HasSubmitted : Bool
deriving DecidableEq, Repr

/-- The struct `Game` of `game.go` (without the mutex). -/
structure Game where
  ID : String
  Players : List Player
  State : GameState
deriving DecidableEq, Repr

/-- The map `Players` has pairwise different keys. -/
def Game.WF (g : Game) : Prop := (g.Players.map Player.ID).Nodup

instance (g : Game) : Decidable g.WF := by
  unfold Game.WF; infer_instance

/-- `NewPlayer` of `player.go`. -/
def NewPlayer (id name : String) (isHost : Bool) : Player :=
  { ID := id, Name := name, Lives := 7, IsHost := isHost, Number := none, HasSubmitted := false }

/-- `NewGame` of `game.go`. -/
def NewGame (id : String) : Game :=
  { ID := id, Players := [], State := GameState.Waiting }

/-- `m[k] = v` on a `Players` map: replace the entry with that ID, or add one. -/
def setPlayer : List Player → Player → List Player
  | [], v => [v]
  | p :: ps, v => if p.ID = v.ID then v :: ps else p :: setPlayer ps v

/-- `g.Players[id]` with the comma-ok form: the entry and whether it exists. -/
def getPlayer (ps : List Player) (id : String) : Option Player :=
  ps.find? (fun p => decide (p.ID = id))

/-- `AddPlayer` of `game.go`: the game afterwards and the returned error. -/
def AddPlayer (g : Game) (player : Player) : Game × Option String :=
  if g.State ≠ GameState.Waiting then
    (g, some "game has already started")
  else
    ({ g with Players := setPlayer g.Players player }, none)

/-- `SubmitNumber` of `game.go`: the game afterwards and the returned error. -/
def SubmitNumber (g : Game) (playerID : String) (number : Nat) : Game × Option String :=
  match getPlayer g.Players playerID with
  | none => (g, some "player not found")
  | some player =>
    if player.Lives ≤ 0 then
      (g, some "player is eliminated")
    else
      ({ g with Players := g.Players.map (fun p =>
          if p.ID = playerID then { p with Number := some number, HasSubmitted := true } else p) },
        none)

/-- `AllPlayersSubmitted` of `game.go`. -/
def AllPlayersSubmitted (g : Game) : Bool :=
  g.Players.all (fun p => !(decide (p.Lives > 0) && !p.HasSubmitted))

/-- `numberCount[n] = append(numberCount[n], id)` on the map `numberCount`,
kept as a list of (number, IDs) entries. -/
def appendID : List (Nat × List String) → Nat → String → List (Nat × List String)
  | [], n, id => [(n, [id])]
  | (k, ids) :: rest, n, id =>
    if k = n then (k, ids ++ [id]) :: rest else (k, ids) :: appendID rest n id

/-- The body of the first loop of `EvaluateRound`. -/
def collectStep (m : List (Nat × List String)) (p : Player) : List (Nat × List String) :=
  if p.Lives ≤ 0 then m
  else match p.Number with
    | none => m
    | some n => appendID m n p.ID

/-- The first loop of `EvaluateRound`: the map `numberCount`. -/
def collectNumbers (ps : List Player) : List (Nat × List String) :=
  ps.foldl collectStep []

/-- `g.Players[playerID].Lives--`. -/
def decLives (ps : List Player) (playerID : String) : List Player :=
  ps.map (fun p => if p.ID = playerID then { p with Lives := p.Lives - 1 } else p)

/-- The locals `min`, `max`, `minPlayer`, `maxPlayer` of `EvaluateRound`;
a `*Player` is held as the ID of the entry it points to, nil being `none`. -/
structure Track where
  min : Nat
  max : Nat
  minPlayer : Option String
  maxPlayer : Option String
deriving DecidableEq, Repr

/-- The zero values of the four locals. -/
def Track.init : Track := { min := 0, max := 0, minPlayer := none, maxPlayer := none }

/-- The two `if`s that track the minimum and the maximum for a group of one
player.  `*player.Number` is the key `num` of the group: the first loop filed
the player under its own number and nothing has written `Number` since. -/
def trackStep (t : Track) (num : Nat) (playerID : String) : Track :=
  let t1 : Track :=
    if t.minPlayer = none ∨ num < t.min then { t with min := num, minPlayer := some playerID } else t
  if t1.maxPlayer = none ∨ num > t1.max then { t1 with max := num, maxPlayer := some playerID } else t1

/-- The body of the second loop of `EvaluateRound`, for one entry of `numberCount`. -/
def handleGroup (st : List Player × Track) (grp : Nat × List String) : List Player × Track :=
  if grp.2.length > 1 then
    (grp.2.foldl decLives st.1, st.2)
  else
    match grp.2 with
    | [playerID] => (st.1, trackStep st.2 grp.1 playerID)
    | _ => st

/-- `if ptr != nil { ptr.Lives-- }`. -/
def decOpt (ps : List Player) : Option String → List Player
  | none => ps
  | some id => decLives ps id

/-- The reset loop of `EvaluateRound`, for one player. -/
def resetPlayer (p : Player) : Player :=
  { p with Number := none, HasSubmitted := false }

/-- The last loop of `EvaluateRound`: the number of players with `Lives > 0`. -/
def activePlayers (ps : List Player) : Nat :=
  (ps.filter (fun p => decide (p.Lives > 0))).length

/-- `EvaluateRound` of `game.go`. -/
def EvaluateRound (g : Game) : Game :=
  let numberCount := collectNumbers g.Players
  let st := numberCount.foldl handleGroup (g.Players, Track.init)
  let ps1 := decOpt st.1 st.2.minPlayer
  let ps2 := decOpt ps1 st.2.maxPlayer
  let ps3 := ps2.map resetPlayer
  { g with Players := ps3, State := if activePlayers ps3 ≤ 1 then GameState.Finished else g.State }

/-- The `Lives` of the entry `id` of the `Players` map, if there is one. -/
def livesOf (g : Game) (id : String) : Option Int :=
  (getPlayer g.Players id).map Player.Lives

end game


namespace wsmain

/-- The struct `Player` of `main.go` (without the connection and the mutex). -/
structure Player where
  ID : String
  Name : String
  Lives : Int
  Number : Int
  HasPlayed : Bool
  IsHost : Bool
deriving DecidableEq, Repr

/-- The struct `Game` of `main.go` (without the mutex). -/
structure Game where
  ID : String
  Players : List Player
  State : String
  Round : Int
deriving DecidableEq, Repr

/-- `createGame` of `main.go`; the generated identifier is an argument. -/
def createGame (id : String) : Game :=
  { ID := id, Players := [], State := "waiting", Round := 1 }

/-- `m[k] = v` on a `Players` map: replace the entry with that ID, or add one. -/
def setPlayer : List Player → Player → List Player
  | [], v => [v]
  | p :: ps, v => if p.ID = v.ID then v :: ps else p :: setPlayer ps v

/-- `g.Players[id]` with the comma-ok form. -/
def getPlayer (ps : List Player) (id : String) : Option Player :=
  ps.find? (fun p => decide (p.ID = id))

/-- `addPlayer` of `main.go`: the game afterwards and the returned player.
The generated player identifier is the argument `id`. -/
def addPlayer (g : Game) (id name : String) : Game × Player :=
  let isHost := decide (g.Players.length = 0)
  let player : Player :=
    { ID := id, Name := name, Lives := 7, Number := 0, HasPlayed := false, IsHost := isHost }
  ({ g with Players := setPlayer g.Players player }, player)

/-- `removePlayer` of `main.go`: `delete(g.Players, playerID)`. -/
def removePlayer (g : Game) (playerID : String) : Game :=
  { g with Players := g.Players.filter (fun p => decide (p.ID ≠ playerID)) }

/-- `counts[n]++` on the map `counts` of `resolveRound`. -/
def incCount : List (Int × Int) → Int → List (Int × Int)
  | [], n => [(n, 1)]
  | (k, c) :: rest, n => if k = n then (k, c + 1) :: rest else (k, c) :: incCount rest n

/-- `playerNumbers[id] = n` on the map `playerNumbers` of `resolveRound`. -/
def setNumber : List (String × Int) → String → Int → List (String × Int)
  | [], id, n => [(id, n)]
  | (k, v) :: rest, id, n => if k = id then (k, n) :: rest else (k, v) :: setNumber rest id n

/-- The locals `numbers`, `counts` and `playerNumbers` of `resolveRound`. -/
structure Collected where
  numbers : List Int
  counts : List (Int × Int)
  playerNumbers : List (String × Int)
deriving DecidableEq, Repr

/-- The body of the first loop of `resolveRound`. -/
def collectStep (c : Collected) (p : Player) : Collected :=
  if p.Lives > 0 ∧ p.HasPlayed = true then
    { numbers := c.numbers ++ [p.Number],
      counts := incCount c.counts p.Number,
      playerNumbers := setNumber c.playerNumbers p.ID p.Number }
  else c

/-- The loop of `resolveRound` that determines `min` and `max`, both started at `numbers[0]`. -/
def minMax (first : Int) (numbers : List Int) : Int × Int :=
  numbers.foldl (fun mm num =>
    (if num < mm.1 then num else mm.1, if num > mm.2 then num else mm.2)) (first, first)

/-- One iteration of the loops over `minPlayers` and `maxPlayers`:
`Lives--` for a player that exists with `Lives > 0`, set to 0 when it drops to 0 or below. -/
def loseLife (ps : List Player) (pid : String) : List Player :=
  ps.map (fun p =>
    if p.ID = pid ∧ p.Lives > 0 then
      { p with Lives := if p.Lives - 1 ≤ 0 then 0 else p.Lives - 1 }
    else p)

/-- The innermost statement of the mismo loop: `Lives = 0` for a player that exists with
`Lives > 0`. -/
def eliminate (ps : List Player) (pid : String) : List Player :=
  ps.map (fun p => if p.ID = pid ∧ p.Lives > 0 then { p with Lives := 0 } else p)

/-- The body of the mismo loop of `resolveRound`, for one entry of `counts`. -/
def mismoStep (playerNumbers : List (String × Int)) (ps : List Player) (entry : Int × Int) :
    List Player :=
  if entry.2 = 2 then
    playerNumbers.foldl (fun acc pn => if pn.2 = entry.1 then eliminate acc pn.1 else acc) ps
  else ps

/-- The number of players with `Lives > 0`. -/
def activePlayers (ps : List Player) : Nat :=
  (ps.filter (fun p => decide (p.Lives > 0))).length

/-- `resolveRound` of `main.go`. -/
def resolveRound (g : Game) : Game :=
  let c := g.Players.foldl collectStep { numbers := [], counts := [], playerNumbers := [] }
  match c.numbers with
  | [] => g
  | first :: _ =>
    let mm := minMax first c.numbers
    let minPlayers := (c.playerNumbers.filter (fun pn => decide (pn.2 = mm.1))).map Prod.fst
    let maxPlayers := (c.playerNumbers.filter (fun pn => decide (pn.2 = mm.2))).map Prod.fst
    let ps1 := minPlayers.foldl loseLife g.Players
    let ps2 := maxPlayers.foldl loseLife ps1
    let ps3 := c.counts.foldl (mismoStep c.playerNumbers) ps2
    { g with Players := ps3, State := if activePlayers ps3 ≤ 1 then "gameOver" else g.State }

/-- `submitNumber` of `main.go`. -/
def submitNumber (g : Game) (playerID : String) (number : Int) : Game :=
  if g.State ≠ "playing" then g
  else
    match getPlayer g.Players playerID with
    | none => g
    | some player =>
      if player.HasPlayed = false ∧ player.Lives > 0 then
        let g1 : Game := { g with Players := g.Players.map (fun p =>
          if p.ID = playerID then { p with Number := number, HasPlayed := true } else p) }
        let allPlayed := g1.Players.all (fun p => !(decide (p.Lives > 0) && !p.HasPlayed))
        if allPlayed then
          { resolveRound g1 with State := "roundEnd" }
        else g1
      else g

end wsmain

namespace server

/-- The struct `Player` of `server.go`.  `SubmissionTime` is written and never read; it is
left out. -/
structure Player where
  ID : String
  Name : String
  Lives : Int
  Number : Nat
  Submitted : Bool
  Eliminated : Bool
  IsHost : Bool
deriving DecidableEq, Repr

/-- The struct `Game` of `server.go` (without the mutex). -/
structure Game where
  ID : String
  Players : List Player
  HasStarted : Bool
  RoundCompleted : Bool
deriving DecidableEq, Repr

/-- The locals `minNum`, `maxNum`, `hasMin`, `hasMax` of `resolveRound`. -/
structure Extremes where
  minNum : Nat
  maxNum : Nat
  hasMin : Bool
  hasMax : Bool
deriving DecidableEq, Repr

/-- `submissions[num] = append(submissions[num], p)`; a `*Player` is held as its ID. -/
def appendPlayer : List (Nat × List String) → Nat → String → List (Nat × List String)
  | [], n, id => [(n, [id])]
  | (k, ids) :: rest, n, id =>
    if k = n then (k, ids ++ [id]) :: rest else (k, ids) :: appendPlayer rest n id

/-- The body of the first loop of `resolveRound`. -/
def scanStep (st : Extremes × List (Nat × List String)) (p : Player) :
    Extremes × List (Nat × List String) :=
  if p.Eliminated then st
  else
    let e := st.1
    let e1 : Extremes :=
      if e.hasMin = false ∨ p.Number < e.minNum then { e with minNum := p.Number, hasMin := true }
      else e
    let e2 : Extremes :=
      if e1.hasMax = false ∨ p.Number > e1.maxNum then { e1 with maxNum := p.Number, hasMax := true }
      else e1
    (e2, appendPlayer st.2 p.Number p.ID)

/-- `p.Lives--; if p.Lives <= 0 { p.Eliminated = true }`. -/
def loseLife (p : Player) : Player :=
  let l := p.Lives - 1
  { p with Lives := l, Eliminated := if l ≤ 0 then true else p.Eliminated }

/-- The body of the second loop of `resolveRound`. -/
def extremesStep (e : Extremes) (p : Player) : Player :=
  if p.Eliminated then p
  else
    let p1 := if p.Number = e.minNum then loseLife p else p
    if p1.Number = e.maxNum then loseLife p1 else p1

/-- `p.Eliminated = true` through the pointer held in a group of `submissions`. -/
def markEliminated (ps : List Player) (id : String) : List Player :=
  ps.map (fun p => if p.ID = id then { p with Eliminated := true } else p)

/-- The body of the third loop of `resolveRound`, for one entry of `submissions`. -/
def mismoStep (ps : List Player) (entry : Nat × List String) : List Player :=
  if entry.2.length = 2 then entry.2.foldl markEliminated ps else ps

/-- `checkGameOver` of `server.go`. -/
def checkGameOver (g : Game) : Bool :=
  decide ((g.Players.filter (fun p => !p.Eliminated)).length ≤ 1)

/-- `resolveRound` of `server.go`; the result of its last statement, a call of
`checkGameOver`, is discarded there. -/
def resolveRound (g : Game) : Game :=
  let init : Extremes := { minNum := 0, maxNum := 0, hasMin := false, hasMax := false }
  let st := g.Players.foldl scanStep (init, [])
  let ps1 := g.Players.map (extremesStep st.1)
  let ps2 := st.2.foldl mismoStep ps1
  { g with Players := ps2 }

/-- `g.Players[id]` with the comma-ok form. -/
def getPlayer (ps : List Player) (id : String) : Option Player :=
  ps.find? (fun p => decide (p.ID = id))

/-- The part of `handleSubmitNumber` that runs under the game mutex, after the form is parsed
and the game is found: the game afterwards and the HTTP status of the response. -/
def handleSubmitNumber (g : Game) (playerID : String) (num : Nat) : Game × Nat :=
  match getPlayer g.Players playerID with
  | none => (g, 404)
  | some p =>
    if p.Eliminated then (g, 403)
    else if g.HasStarted = false ∧ p.IsHost = false then (g, 403)
    else if g.HasStarted = false ∧ g.Players.length < 3 then (g, 403)
    else
      let g1 : Game := { g with
        HasStarted := true,
        Players := g.Players.map (fun q =>
          if q.ID = playerID then { q with Submitted := true, Number := num } else q) }
      let allSubmitted := g1.Players.all (fun pl => !(!pl.Eliminated && !pl.Submitted))
      if allSubmitted then
        ({ resolveRound g1 with RoundCompleted := true }, 200)
      else (g1, 200)

end server


/-! ## Auxiliary definitions: proof devices, the notions the claims are stated with, and concrete games -/

namespace game

/-- Proof device: the players after the decrements listed in `ds` (one `Lives--` per
occurrence of a player's ID). -/
def applyDecs (ds : List String) (ps : List Player) : List Player :=
  ps.map (fun p => { p with Lives := p.Lives - (ds.count p.ID : Int) })

/-- Proof device: the IDs decremented by the mismo branch of the second loop. -/
def dupIDs : List (Nat × List String) → List String
  | [] => []
  | grp :: rest => if grp.2.length > 1 then grp.2 ++ dupIDs rest else dupIDs rest

/-- Proof device: the effect of `handleGroup` on the four tracking locals. -/
def trackGroup (t : Track) (grp : Nat × List String) : Track :=
  match grp.2 with
  | [playerID] => trackStep t grp.1 playerID
  | _ => t

/-- Proof device: every `Lives--` of one `EvaluateRound`, in order. -/
def allDecs (ps : List Player) : List String :=
  let m := collectNumbers ps
  let t := m.foldl trackGroup Track.init
  dupIDs m ++ t.minPlayer.toList ++ t.maxPlayer.toList

/-- Proof device: the submissions the first loop files, in order: (number, ID) of every
player with `Lives > 0` and a `Number`. -/
def subs (ps : List Player) : List (Nat × String) :=
  ps.filterMap (fun p => if p.Lives ≤ 0 then none else p.Number.map (fun n => (n, p.ID)))

/-- Proof device: the IDs filed under the number `k`. -/
def idsAt (l : List (Nat × String)) (k : Nat) : List String :=
  (l.filter (fun x => decide (x.1 = k))).map Prod.snd

/-- Proof device: what the four tracking locals hold once the groups with the keys `ks`
have been visited. -/
def TrackInv (G : Nat → List String) (ks : List Nat) (t : Track) : Prop :=
  (t.minPlayer = none → ∀ k ∈ ks, (G k).length ≠ 1) ∧
  (∀ id, t.minPlayer = some id →
    t.min ∈ ks ∧ G t.min = [id] ∧ ∀ k ∈ ks, (G k).length = 1 → t.min ≤ k) ∧
  (t.maxPlayer = none → ∀ k ∈ ks, (G k).length ≠ 1) ∧
  (∀ id, t.maxPlayer = some id →
    t.max ∈ ks ∧ G t.max = [id] ∧ ∀ k ∈ ks, (G k).length = 1 → k ≤ t.max)

/-- The active players (`Lives > 0`) whose submitted number is `n`. -/
def holders (ps : List Player) (n : Nat) : List Player :=
  ps.filter (fun q => decide (q.Lives > 0) && decide (q.Number = some n))

/-- The number of active players (`Lives > 0`) other than `p` that submitted the number
of `p`. -/
def others (g : Game) (p : Player) : Nat :=
  (g.Players.filter (fun q =>
    decide (q.ID ≠ p.ID) && (decide (q.Lives > 0) && decide (q.Number = p.Number)))).length

/-- The unique values of a round: the numbers of the active players whose number no other
active player submitted. -/
def uniqueNumbers (g : Game) : List Nat :=
  g.Players.filterMap (fun q => if q.Lives > 0 ∧ others g q = 0 then q.Number else none)

/-- Scenario A: three players at 7 lives submit 3, 7, 7. -/
def scenarioA : Game :=
  { ID := "g", State := GameState.Playing,
    Players := [
      { ID := "A", Name := "a", Lives := 7, Number := some 3, IsHost := true, HasSubmitted := true },
      { ID := "B", Name := "b", Lives := 7, Number := some 7, IsHost := false, HasSubmitted := true },
      { ID := "C", Name := "c", Lives := 7, Number := some 7, IsHost := false, HasSubmitted := true }] }

/-- The first player of scenario A. -/
def scenarioA_first : Player :=
  { ID := "A", Name := "a", Lives := 7, Number := some 3, IsHost := true, HasSubmitted := true }

/-- Scenario B: four players at 7 lives submit 1, 5, 5, 9. -/
def scenarioB : Game :=
  { ID := "g", State := GameState.Playing,
    Players := [
      { ID := "A", Name := "a", Lives := 7, Number := some 1, IsHost := true, HasSubmitted := true },
      { ID := "B", Name := "b", Lives := 7, Number := some 5, IsHost := false, HasSubmitted := true },
      { ID := "C", Name := "c", Lives := 7, Number := some 5, IsHost := false, HasSubmitted := true },
      { ID := "D", Name := "d", Lives := 7, Number := some 9, IsHost := false, HasSubmitted := true }] }

/-- The second player of scenario B. -/
def scenarioB_second : Player :=
  { ID := "B", Name := "b", Lives := 7, Number := some 5, IsHost := false, HasSubmitted := true }

/-- Three players at 7 lives all submit 4. -/
def threeWay : Game :=
  { ID := "g", State := GameState.Playing,
    Players := [
      { ID := "A", Name := "a", Lives := 7, Number := some 4, IsHost := true, HasSubmitted := true },
      { ID := "B", Name := "b", Lives := 7, Number := some 4, IsHost := false, HasSubmitted := true },
      { ID := "C", Name := "c", Lives := 7, Number := some 4, IsHost := false, HasSubmitted := true }] }

/-- The first player of `threeWay`. -/
def threeWay_first : Player :=
  { ID := "A", Name := "a", Lives := 7, Number := some 4, IsHost := true, HasSubmitted := true }

/-- Scenario A with the first player down to one life. -/
def lastLife : Game :=
  { ID := "g", State := GameState.Playing,
    Players := [
      { ID := "A", Name := "a", Lives := 1, Number := some 3, IsHost := true, HasSubmitted := true },
      { ID := "B", Name := "b", Lives := 7, Number := some 7, IsHost := false, HasSubmitted := true },
      { ID := "C", Name := "c", Lives := 7, Number := some 7, IsHost := false, HasSubmitted := true }] }

/-- The first player of `lastLife`. -/
def lastLife_first : Player :=
  { ID := "A", Name := "a", Lives := 1, Number := some 3, IsHost := true, HasSubmitted := true }

/-- Two players that are the same, except possibly for `Number` and `HasSubmitted` when
`Lives <= 0`. -/
def samePlayerButEliminated (p q : Player) : Prop :=
  p.ID = q.ID ∧ p.Name = q.Name ∧ p.Lives = q.Lives ∧ p.IsHost = q.IsHost ∧
    (0 < p.Lives → p.Number = q.Number ∧ p.HasSubmitted = q.HasSubmitted)

/-- Two games that differ only in the `Number` and `HasSubmitted` fields of players with
`Lives <= 0`. -/
def SameButEliminated (g g' : Game) : Prop :=
  g.ID = g'.ID ∧ g.State = g'.State ∧
    List.Forall₂ samePlayerButEliminated g.Players g'.Players

/-- A game in state `Waiting` with one player at 7 lives. -/
def lobby : Game :=
  { ID := "g", State := GameState.Waiting,
    Players := [
      { ID := "A", Name := "a", Lives := 7, Number := none, IsHost := true, HasSubmitted := false }] }

/-- A round with an eliminated player whose stale submission is still recorded. -/
def withStale : Game :=
  { ID := "g", State := GameState.Playing,
    Players := [
      { ID := "A", Name := "a", Lives := 3, Number := some 3, IsHost := true, HasSubmitted := true },
      { ID := "B", Name := "b", Lives := 2, Number := some 7, IsHost := false, HasSubmitted := true },
      { ID := "C", Name := "c", Lives := 4, Number := some 9, IsHost := false, HasSubmitted := true },
      { ID := "D", Name := "d", Lives := 0, Number := some 1, IsHost := false, HasSubmitted := true }] }

/-- Scenario A with every player down to one life. -/
def allOnLastLife : Game :=
  { ID := "g", State := GameState.Playing,
    Players := [
      { ID := "A", Name := "a", Lives := 1, Number := some 3, IsHost := true, HasSubmitted := true },
      { ID := "B", Name := "b", Lives := 1, Number := some 7, IsHost := false, HasSubmitted := true },
      { ID := "C", Name := "c", Lives := 1, Number := some 7, IsHost := false, HasSubmitted := true }] }

/-- The game `withStale` with the fields of the eliminated player cleared. -/
def withoutStale : Game :=
  { ID := "g", State := GameState.Playing,
    Players := [
      { ID := "A", Name := "a", Lives := 3, Number := some 3, IsHost := true, HasSubmitted := true },
      { ID := "B", Name := "b", Lives := 2, Number := some 7, IsHost := false, HasSubmitted := true },
      { ID := "C", Name := "c", Lives := 4, Number := some 9, IsHost := false, HasSubmitted := true },
      { ID := "D", Name := "d", Lives := 0, Number := none, IsHost := false, HasSubmitted := false }] }

end game

namespace wsmain

/-- One call made on a game by the connections: `addPlayer` with the generated
identifier and the name, or `removePlayer`. -/
inductive Op where
  | add (id name : String)
  | remove (playerID : String)
deriving DecidableEq, Repr

/-- The game after one call. -/
def applyOp (g : Game) : Op → Game
  | Op.add id name => (addPlayer g id name).1
  | Op.remove playerID => removePlayer g playerID

/-- The game after a sequence of calls. -/
def run (g : Game) (ops : List Op) : Game :=
  ops.foldl applyOp g

/-- The number of `addPlayer` calls in a sequence. -/
def addsIn : List Op → Nat
  | [] => 0
  | Op.add _ _ :: rest => addsIn rest + 1
  | Op.remove _ :: rest => addsIn rest

/-- A round of three players in which two have played 1 and 9 with one life left, and the
third has not played yet. -/
def lastSubmission : Game :=
  { ID := "g", State := "playing", Round := 1,
    Players := [
      { ID := "A", Name := "a", Lives := 1, Number := 1, HasPlayed := true, IsHost := true },
      { ID := "B", Name := "b", Lives := 1, Number := 9, HasPlayed := true, IsHost := false },
      { ID := "C", Name := "c", Lives := 7, Number := 0, HasPlayed := false, IsHost := false }] }

/-- The game `lastSubmission` once the number 5 of the third player is recorded, as
`submitNumber` passes it to `resolveRound`. -/
def lastSubmission_recorded : Game :=
  { ID := "g", State := "playing", Round := 1,
    Players := [
      { ID := "A", Name := "a", Lives := 1, Number := 1, HasPlayed := true, IsHost := true },
      { ID := "B", Name := "b", Lives := 1, Number := 9, HasPlayed := true, IsHost := false },
      { ID := "C", Name := "c", Lives := 7, Number := 5, HasPlayed := true, IsHost := false }] }

end wsmain

namespace server

/-- A game of three players at 7 lives that has not started; the first is the host. -/
def fresh : Game :=
  { ID := "g", HasStarted := false, RoundCompleted := false,
    Players := [
      { ID := "A", Name := "a", Lives := 7, Number := 0, Submitted := false,
        Eliminated := false, IsHost := true },
      { ID := "B", Name := "b", Lives := 7, Number := 0, Submitted := false,
        Eliminated := false, IsHost := false },
      { ID := "C", Name := "c", Lives := 7, Number := 0, Submitted := false,
        Eliminated := false, IsHost := false }] }

/-- The game `fresh` after the three players have submitted 1, 5 and 9. -/
def resolvedOnce : Game :=
  (handleSubmitNumber (handleSubmitNumber (handleSubmitNumber fresh "A" 1).1 "B" 5).1 "C" 9).1

end server

namespace wsmain

/-- The value a Go `int` (64 bits, two's complement) holds for the integer `x`: `x` itself
from -9223372036854775808 to 9223372036854775807, and wrapped around outside that range. -/
def wrapInt (x : Int) : Int :=
  (x + 9223372036854775808) % 18446744073709551616 - 9223372036854775808

/-- `startNextRound` of `main.go`.  `Round` is a Go `int`, so `g.Round++` wraps around at
the greatest `int`. -/
def startNextRound (g : Game) : Game :=
  if g.State ≠ "roundEnd" ∧ g.State ≠ "gameOver" then g
  else
    let ps := g.Players.map (fun p =>
      if p.Lives > 0 then { p with HasPlayed := false, Number := 0 } else p)
    if g.State ≠ "gameOver" then
      { g with Players := ps, Round := wrapInt (g.Round + 1), State := "playing" }
    else
      { g with Players := ps }

/-- A game in state "roundEnd" whose `Round` is the greatest Go `int`. -/
def roundAtMax : Game :=
  { ID := "g", State := "roundEnd", Round := 9223372036854775807, Players := [] }

/-- The case "start" of the message loop of `wsHandler`: the game afterwards and the error
written to the connection, if any.  `player` is the local variable of the handler: the player
this connection joined as, nil (`none`) before any join. -/
def handleStart (g : Game) (player : Option Player) : Game × Option String :=
  match player with
  | none => (g, some "Only host can start the game.")
  | some p =>
    if p.IsHost = false then (g, some "Only host can start the game.")
    else if g.State ≠ "waiting" then (g, some "Game already started.")
    else if g.Players.length < 3 then (g, some "At least 3 players required to start.")
    else ({ g with State := "playing" }, none)

/-- A round that has ended: two players still have lives and the third is eliminated. -/
def roundOver : Game :=
  { ID := "g", State := "roundEnd", Round := 4,
    Players := [
      { ID := "A", Name := "a", Lives := 3, Number := 1, HasPlayed := true, IsHost := true },
      { ID := "B", Name := "b", Lives := 2, Number := 9, HasPlayed := true, IsHost := false },
      { ID := "C", Name := "c", Lives := 0, Number := 5, HasPlayed := true, IsHost := false }] }

/-- The host of the lobbies below. -/
def hostAnn : Player :=
  { ID := "A", Name := "ann", Lives := 7, Number := 0, HasPlayed := false, IsHost := true }

/-- A waiting game with two players. -/
def lobbyOfTwo : Game :=
  { ID := "g", State := "waiting", Round := 1,
    Players := [
      { ID := "A", Name := "ann", Lives := 7, Number := 0, HasPlayed := false, IsHost := true },
      { ID := "B", Name := "bob", Lives := 7, Number := 0, HasPlayed := false, IsHost := false }] }

/-- A waiting game with three players. -/
def lobbyOfThree : Game :=
  { ID := "g", State := "waiting", Round := 1,
    Players := [
      { ID := "A", Name := "ann", Lives := 7, Number := 0, HasPlayed := false, IsHost := true },
      { ID := "B", Name := "bob", Lives := 7, Number := 0, HasPlayed := false, IsHost := false },
      { ID := "C", Name := "cat", Lives := 7, Number := 0, HasPlayed := false, IsHost := false }] }

end wsmain

namespace game

/-- The invariant of the data model: `HasSubmitted` is true if and only if `Number` is
present. -/
def Player.consistent (p : Player) : Prop :=
  p.HasSubmitted = true ↔ p.Number ≠ none

instance (p : Player) : Decidable p.consistent := by
  unfold Player.consistent; infer_instance

/-- A game built with the operations of the package only: two players join, both submit,
and the round is evaluated while the State is still `Waiting`; both are left with 6 lives. -/
def afterOneRound : Game :=
  EvaluateRound
    (SubmitNumber
      (SubmitNumber
        (AddPlayer (AddPlayer (NewGame "g") (NewPlayer "A" "ann" true)).1
          (NewPlayer "B" "bob" false)).1
        "A" 1).1
      "B" 2).1

end game

namespace game

/-- `EvaluateRound` with the iteration orders of its two deciding map loops made explicit:
the first loop ranges over `Players` in the order `visit g.Players`, the second ranges over
`numberCount` in the order `order numberCount`.  The reset loop writes each entry once and
the last loop counts entries, whatever their order. -/
def EvaluateRoundIn (visit : List Player → List Player)
    (order : List (Nat × List String) → List (Nat × List String)) (g : Game) : Game :=
  let numberCount := collectNumbers (visit g.Players)
  let st := (order numberCount).foldl handleGroup (g.Players, Track.init)
  let ps1 := decOpt st.1 st.2.minPlayer
  let ps2 := decOpt ps1 st.2.maxPlayer
  let ps3 := ps2.map resetPlayer
  { g with Players := ps3, State := if activePlayers ps3 ≤ 1 then GameState.Finished else g.State }

/-- Proof device: every `Lives--` of one run of the second loop over `groups` and of the two
statements after it, in order. -/
def decsOf (groups : List (Nat × List String)) : List String :=
  dupIDs groups ++ (groups.foldl trackGroup Track.init).minPlayer.toList
    ++ (groups.foldl trackGroup Track.init).maxPlayer.toList

/-- Proof device: the list `D` of decrements counts `id` as the groups of the submissions
`l` prescribe, visited in some order `ks` of their keys. -/
def DecsSpec (l : List (Nat × String)) (D : List String) (id : String) : Prop :=
  ∃ (ks : List Nat) (t : Track), ks.Nodup ∧ (∀ k, k ∈ ks ↔ k ∈ l.map Prod.fst) ∧
    TrackInv (idsAt l) ks t ∧
    D.count id
      = (dupIDs (ks.map (fun k => (k, idsAt l k)))).count id
        + (if t.minPlayer = some id then 1 else 0) + (if t.maxPlayer = some id then 1 else 0)

end game

namespace wsmain

/-- The `Lives` of the entry `id` of the `Players` map, if there is one. -/
def livesOf (g : Game) (id : String) : Option Int :=
  (getPlayer g.Players id).map Player.Lives

/-- Proof device: the players the first loop of `resolveRound` collects, in order. -/
def actives (ps : List Player) : List Player :=
  ps.filter (fun p => decide (p.Lives > 0) && p.HasPlayed)

/-- Proof device: what `loseLife` does to one entry of the map. -/
def loseStep (pid : String) (p : Player) : Player :=
  if p.ID = pid ∧ p.Lives > 0 then
    { p with Lives := if p.Lives - 1 ≤ 0 then 0 else p.Lives - 1 }
  else p

end wsmain

namespace game

/-- The numbers submitted by the active players (`Lives > 0`) of a round. -/
def activeNumbers (g : Game) : List Nat :=
  g.Players.filterMap (fun q => if q.Lives > 0 then q.Number else none)

/-- A player of package `game` and a player of `main.go` in the same state of a round: the
same ID and lives, and, when the player is active, a submitted number that is the same. -/
def samePlayerState (p : Player) (q : wsmain.Player) : Prop :=
  p.ID = q.ID ∧ p.Lives = q.Lives ∧
    (0 < p.Lives → ∃ n : Nat, p.Number = some n ∧ q.HasPlayed = true ∧ q.Number = (n : Int))

/-- A game of package `game` and a game of `main.go` that start a resolution from the same
lives and numbers, every active player having submitted. -/
def SameRound (g : Game) (h : wsmain.Game) : Prop :=
  List.Forall₂ samePlayerState g.Players h.Players

/-- A round without ties in package `game`: 1, 5, 9 and an eliminated player. -/
def noTies : Game :=
  { ID := "g", State := GameState.Playing,
    Players := [
      { ID := "A", Name := "a", Lives := 7, Number := some 1, IsHost := true, HasSubmitted := true },
      { ID := "B", Name := "b", Lives := 7, Number := some 5, IsHost := false, HasSubmitted := true },
      { ID := "C", Name := "c", Lives := 1, Number := some 9, IsHost := false, HasSubmitted := true },
      { ID := "D", Name := "d", Lives := 0, Number := none, IsHost := false, HasSubmitted := false }] }

end game

namespace wsmain

/-- The round `game.noTies` in `main.go`. -/
def noTies : Game :=
  { ID := "g", State := "playing", Round := 3,
    Players := [
      { ID := "A", Name := "a", Lives := 7, Number := 1, HasPlayed := true, IsHost := true },
      { ID := "B", Name := "b", Lives := 7, Number := 5, HasPlayed := true, IsHost := false },
      { ID := "C", Name := "c", Lives := 1, Number := 9, HasPlayed := true, IsHost := false },
      { ID := "D", Name := "d", Lives := 0, Number := 0, HasPlayed := false, IsHost := false }] }

end wsmain

/-! ## Theorems -/

namespace game

theorem applyDecs_nil (ps : List Player) : applyDecs [] ps = ps := by
  unfold applyDecs
  simp

theorem decLives_applyDecs (ds : List String) (ps : List Player) (id : String) :
    decLives (applyDecs ds ps) id = applyDecs (ds ++ [id]) ps := by
  unfold decLives applyDecs
  rw [List.map_map]
  apply List.map_congr_left
  intro p _
  by_cases h : p.ID = id
  · subst h
    simp [List.count_append]
    omega
  · have h2 : ¬ (id = p.ID) := fun e => h e.symm
    simp [List.count_append, h, h2, List.count_singleton]

theorem foldl_decLives (ids ds : List String) (ps : List Player) :
    ids.foldl decLives (applyDecs ds ps) = applyDecs (ds ++ ids) ps := by
  induction ids generalizing ds with
  | nil => simp
  | cons id rest ih =>
    rw [List.foldl_cons, decLives_applyDecs, ih]
    simp

theorem foldl_handleGroup (m : List (Nat × List String)) (ds : List String)
    (ps : List Player) (t : Track) :
    m.foldl handleGroup (applyDecs ds ps, t)
      = (applyDecs (ds ++ dupIDs m) ps, m.foldl trackGroup t) := by
  induction m generalizing ds t with
  | nil => simp [dupIDs]
  | cons grp rest ih =>
    rw [List.foldl_cons, List.foldl_cons]
    by_cases h : grp.2.length > 1
    · have e : handleGroup (applyDecs ds ps, t) grp = (applyDecs (ds ++ grp.2) ps, trackGroup t grp) := by
        unfold handleGroup trackGroup
        rw [if_pos h]
        simp only [foldl_decLives]
        rcases hg : grp.2 with _ | ⟨a, _ | ⟨b, r⟩⟩
        · rfl
        · rw [hg] at h; simp at h
        · rfl
      rw [e, ih]
      simp [dupIDs, h]
    · have e : handleGroup (applyDecs ds ps, t) grp = (applyDecs ds ps, trackGroup t grp) := by
        unfold handleGroup trackGroup
        rw [if_neg h]
        rcases hg : grp.2 with _ | ⟨a, _ | ⟨b, r⟩⟩ <;> rfl
      rw [e, ih]
      simp [dupIDs, h]

theorem decOpt_applyDecs (ds : List String) (ps : List Player) (o : Option String) :
    decOpt (applyDecs ds ps) o = applyDecs (ds ++ o.toList) ps := by
  cases o with
  | none => simp [decOpt]
  | some id => simp [decOpt, decLives_applyDecs]

theorem EvaluateRound_Players (g : Game) :
    (EvaluateRound g).Players = (applyDecs (allDecs g.Players) g.Players).map resetPlayer := by
  unfold EvaluateRound allDecs
  simp only []
  have h := foldl_handleGroup (collectNumbers g.Players) [] g.Players Track.init
  rw [applyDecs_nil] at h
  rw [h]
  simp only [decOpt_applyDecs, List.nil_append]

theorem collectNumbers_foldl (ps : List Player) (m : List (Nat × List String)) :
    ps.foldl collectStep m = (subs ps).foldl (fun acc x => appendID acc x.1 x.2) m := by
  induction ps generalizing m with
  | nil => rfl
  | cons p rest ih =>
    rw [List.foldl_cons, ih]
    unfold subs
    by_cases h : p.Lives ≤ 0
    · simp [collectStep, h, List.filterMap_cons]
    · cases hn : p.Number with
      | none => simp [collectStep, h, hn, List.filterMap_cons]
      | some n => simp [collectStep, h, hn, List.filterMap_cons]

theorem appendID_normal (G : Nat → List String) (n : Nat) (id : String) (ks : List Nat)
    (hnd : ks.Nodup) (hG : n ∉ ks → G n = []) :
    appendID (ks.map (fun k => (k, G k))) n id
      = (if n ∈ ks then ks else ks ++ [n]).map
          (fun k => (k, if k = n then G n ++ [id] else G k)) := by
  induction ks with
  | nil =>
    have := hG (by simp)
    simp [appendID, this]
  | cons k ks ih =>
    have hk : k ∉ ks := (List.nodup_cons.mp hnd).1
    have hnd2 : ks.Nodup := (List.nodup_cons.mp hnd).2
    by_cases h : k = n
    · subst h
      simp only [List.map_cons, appendID, if_true, List.mem_cons, true_or]
      congr 1
      apply List.map_congr_left
      intro k2 hk2
      have : k2 ≠ k := fun e => hk (e ▸ hk2)
      simp [this]
    · have h2 : ¬ (n = k) := fun e => h e.symm
      have hG2 : n ∉ ks → G n = [] := fun hn => hG (by simp [h2, hn])
      simp only [List.map_cons, appendID, if_neg h, ih hnd2 hG2, List.mem_cons, h2, false_or]
      by_cases hn : n ∈ ks <;> simp [hn, h]

theorem idsAt_append (l : List (Nat × String)) (n : Nat) (id : String) (k : Nat) :
    idsAt (l ++ [(n, id)]) k = if k = n then idsAt l n ++ [id] else idsAt l k := by
  unfold idsAt
  by_cases h : k = n
  · subst h
    simp [List.filter_append]
  · have h2 : ¬ (n = k) := fun e => h e.symm
    simp [List.filter_append, h, h2]

theorem idsAt_eq_nil (l : List (Nat × String)) (k : Nat) (h : k ∉ l.map Prod.fst) :
    idsAt l k = [] := by
  unfold idsAt
  simp only [List.map_eq_nil_iff, List.filter_eq_nil_iff]
  intro x hx
  simp only [decide_eq_true_eq]
  intro e
  exact h (by rw [← e]; exact List.mem_map_of_mem _ hx)

/-- The map `numberCount` after the first loop: one entry for each submitted number, holding
the IDs filed under it. -/
theorem groups_normal (l : List (Nat × String)) :
    ∃ ks : List Nat, ks.Nodup ∧ (∀ k, k ∈ ks ↔ k ∈ l.map Prod.fst) ∧
      l.foldl (fun acc x => appendID acc x.1 x.2) [] = ks.map (fun k => (k, idsAt l k)) := by
  induction l using List.reverseRecOn with
  | nil => exact ⟨[], by simp, by simp, rfl⟩
  | append_singleton l x ih =>
    obtain ⟨ks, hnd, hmem, heq⟩ := ih
    obtain ⟨n, id⟩ := x
    have hG : n ∉ ks → idsAt l n = [] := fun hn =>
      idsAt_eq_nil l n (fun hc => hn ((hmem n).mpr hc))
    refine ⟨if n ∈ ks then ks else ks ++ [n], ?_, ?_, ?_⟩
    · by_cases hn : n ∈ ks
      · simp [hn, hnd]
      · simp only [hn, if_false]
        exact List.Nodup.append hnd (by simp) (by simpa using hn)
    · intro k
      by_cases hn : n ∈ ks
      · simp only [hn, if_true, hmem, List.map_append, List.mem_append, List.map_cons,
          List.map_nil, List.mem_singleton]
        constructor
        · exact Or.inl
        · rintro (h | h)
          · exact h
          · rw [h]; exact (hmem n).mp hn
      · simp [hn, hmem]
    · rw [List.foldl_append, heq]
      simp only [List.foldl_cons, List.foldl_nil]
      rw [appendID_normal (idsAt l) n id ks hnd hG]
      apply List.map_congr_left
      intro k _
      rw [idsAt_append]

theorem count_dupIDs (G : Nat → List String) (id : String) (ks : List Nat) :
    (dupIDs (ks.map (fun k => (k, G k)))).count id
      = (ks.map (fun k => if (G k).length > 1 then (G k).count id else 0)).sum := by
  induction ks with
  | nil => simp [dupIDs]
  | cons k ks ih =>
    simp only [List.map_cons, dupIDs, List.sum_cons]
    split
    · rw [List.count_append, ih]
    · rw [ih]; simp

theorem sum_map_zero (f : Nat → Nat) (ks : List Nat) (hz : ∀ k ∈ ks, f k = 0) :
    (ks.map f).sum = 0 := by
  induction ks with
  | nil => simp
  | cons k ks ih =>
    simp only [List.map_cons, List.sum_cons]
    rw [hz k (by simp), ih (fun k2 h2 => hz k2 (by simp [h2]))]

theorem sum_map_single (f : Nat → Nat) (n : Nat) (ks : List Nat) (hnd : ks.Nodup)
    (hn : n ∈ ks) (hz : ∀ k ∈ ks, k ≠ n → f k = 0) : (ks.map f).sum = f n := by
  induction ks with
  | nil => simp at hn
  | cons k ks ih =>
    have hk : k ∉ ks := (List.nodup_cons.mp hnd).1
    have hnd2 : ks.Nodup := (List.nodup_cons.mp hnd).2
    simp only [List.map_cons, List.sum_cons]
    by_cases h : k = n
    · subst h
      rw [sum_map_zero f ks (fun k2 h2 => hz k2 (by simp [h2]) (fun e => hk (e ▸ h2)))]
      simp
    · have hn2 : n ∈ ks := by
        rcases List.mem_cons.mp hn with e | e
        · exact absurd e.symm h
        · exact e
      rw [hz k (by simp) h, ih hnd2 hn2 (fun k2 h2 => hz k2 (by simp [h2]))]
      simp

theorem mem_idsAt (l : List (Nat × String)) (k : Nat) (id : String) :
    id ∈ idsAt l k ↔ (k, id) ∈ l := by
  unfold idsAt
  simp only [List.mem_map, List.mem_filter, decide_eq_true_eq]
  constructor
  · rintro ⟨⟨a, b⟩, ⟨hx, hk⟩, hid⟩
    simp only at hk hid
    subst hk; subst hid
    exact hx
  · intro h
    exact ⟨(k, id), ⟨h, rfl⟩, rfl⟩

theorem idsAt_nodup (l : List (Nat × String)) (hnd : (l.map Prod.snd).Nodup) (k : Nat) :
    (idsAt l k).Nodup := by
  unfold idsAt
  exact List.Nodup.sublist (List.Sublist.map _ (List.filter_sublist l)) hnd

theorem count_idsAt (l : List (Nat × String)) (hnd : (l.map Prod.snd).Nodup) (k : Nat)
    (id : String) : (idsAt l k).count id = if (k, id) ∈ l then 1 else 0 := by
  rw [List.count_eq_of_nodup (idsAt_nodup l hnd k)]
  simp only [mem_idsAt]

theorem fst_unique (l : List (Nat × String)) (hnd : (l.map Prod.snd).Nodup) (a b : Nat)
    (id : String) (ha : (a, id) ∈ l) (hb : (b, id) ∈ l) : a = b := by
  have := List.inj_on_of_nodup_map hnd ha hb rfl
  exact congrArg Prod.fst this

/-- A player filed under the number `n` is decremented by the mismo branch exactly when
more than one ID is filed under `n`. -/
theorem count_dup_present (l : List (Nat × String)) (hnd : (l.map Prod.snd).Nodup)
    (ks : List Nat) (hks : ks.Nodup) (hmem : ∀ k, k ∈ ks ↔ k ∈ l.map Prod.fst)
    (n : Nat) (id : String) (h : (n, id) ∈ l) :
    (dupIDs (ks.map (fun k => (k, idsAt l k)))).count id
      = if (idsAt l n).length > 1 then 1 else 0 := by
  rw [count_dupIDs]
  have hn : n ∈ ks := (hmem n).mpr (List.mem_map_of_mem Prod.fst h)
  rw [sum_map_single _ n ks hks hn]
  · rw [count_idsAt l hnd, if_pos h]
  · intro k _ hkn
    beta_reduce
    rw [count_idsAt l hnd]
    have : (k, id) ∉ l := fun hc => hkn (fst_unique l hnd k n id hc h)
    simp [this]

theorem count_dup_absent (l : List (Nat × String)) (ks : List Nat) (id : String)
    (h : id ∉ l.map Prod.snd) :
    (dupIDs (ks.map (fun k => (k, idsAt l k)))).count id = 0 := by
  rw [count_dupIDs]
  apply sum_map_zero
  intro k _
  beta_reduce
  have : id ∉ idsAt l k := by
    rw [mem_idsAt]
    intro hc
    exact h (List.mem_map_of_mem Prod.snd hc)
  simp [List.count_eq_zero.mpr this]

theorem trackStep_min (t : Track) (k : Nat) (id : String) :
    (trackStep t k id).minPlayer = (if t.minPlayer = none ∨ k < t.min then some id else t.minPlayer)
      ∧ (trackStep t k id).min = (if t.minPlayer = none ∨ k < t.min then k else t.min) := by
  unfold trackStep
  by_cases h1 : (t.minPlayer = none ∨ k < t.min) <;> simp only [h1, if_true, if_false] <;>
    split <;> simp

theorem trackStep_max (t : Track) (k : Nat) (id : String) :
    (trackStep t k id).maxPlayer = (if t.maxPlayer = none ∨ k > t.max then some id else t.maxPlayer)
      ∧ (trackStep t k id).max = (if t.maxPlayer = none ∨ k > t.max then k else t.max) := by
  unfold trackStep
  by_cases h1 : (t.minPlayer = none ∨ k < t.min) <;> simp only [h1, if_true, if_false] <;>
    split <;> simp_all

theorem trackInv_skip (G : Nat → List String) (ks : List Nat) (t : Track) (k : Nat)
    (h : TrackInv G ks t) (hk : (G k).length ≠ 1) : TrackInv G (ks ++ [k]) t := by
  obtain ⟨h1, h2, h3, h4⟩ := h
  refine ⟨?_, ?_, ?_, ?_⟩
  · intro hn k2 hk2
    rcases List.mem_append.mp hk2 with e | e
    · exact h1 hn k2 e
    · rw [List.mem_singleton.mp e]; exact hk
  · intro id hid
    obtain ⟨a, b, c⟩ := h2 id hid
    refine ⟨List.mem_append_left _ a, b, ?_⟩
    intro k2 hk2 hl
    rcases List.mem_append.mp hk2 with e | e
    · exact c k2 e hl
    · rw [List.mem_singleton.mp e] at hl; exact absurd hl hk
  · intro hn k2 hk2
    rcases List.mem_append.mp hk2 with e | e
    · exact h3 hn k2 e
    · rw [List.mem_singleton.mp e]; exact hk
  · intro id hid
    obtain ⟨a, b, c⟩ := h4 id hid
    refine ⟨List.mem_append_left _ a, b, ?_⟩
    intro k2 hk2 hl
    rcases List.mem_append.mp hk2 with e | e
    · exact c k2 e hl
    · rw [List.mem_singleton.mp e] at hl; exact absurd hl hk

theorem trackInv_step (G : Nat → List String) (ks : List Nat) (t : Track) (k : Nat)
    (id : String) (h : TrackInv G ks t) (hk : G k = [id]) :
    TrackInv G (ks ++ [k]) (trackStep t k id) := by
  obtain ⟨h1, h2, h3, h4⟩ := h
  obtain ⟨m1, m2⟩ := trackStep_min t k id
  obtain ⟨x1, x2⟩ := trackStep_max t k id
  refine ⟨?_, ?_, ?_, ?_⟩
  · intro hn
    rw [m1] at hn
    split at hn
    · exact absurd hn (by simp)
    · rename_i hc
      exact absurd (Or.inl hn) hc
  · intro id2 hid
    rw [m1] at hid
    rw [m2]
    by_cases hc : t.minPlayer = none ∨ k < t.min
    · rw [if_pos hc] at hid ⊢
      have e : id2 = id := (Option.some.inj hid).symm
      subst e
      refine ⟨by simp, hk, ?_⟩
      intro k2 hk2 hl
      rcases List.mem_append.mp hk2 with e | e
      · rcases hc with hc | hc
        · exact absurd hl (h1 hc k2 e)
        · cases hm : t.minPlayer with
          | none => exact absurd hl (h1 hm k2 e)
          | some i0 =>
            have := (h2 i0 hm).2.2 k2 e hl
            omega
      · rw [List.mem_singleton.mp e]
    · rw [if_neg hc] at hid ⊢
      obtain ⟨a, b, c⟩ := h2 id2 hid
      refine ⟨List.mem_append_left _ a, b, ?_⟩
      intro k2 hk2 hl
      rcases List.mem_append.mp hk2 with e | e
      · exact c k2 e hl
      · rw [List.mem_singleton.mp e]
        have : ¬ (k < t.min) := fun hlt => hc (Or.inr hlt)
        omega
  · intro hn
    rw [x1] at hn
    split at hn
    · exact absurd hn (by simp)
    · rename_i hc
      exact absurd (Or.inl hn) hc
  · intro id2 hid
    rw [x1] at hid
    rw [x2]
    by_cases hc : t.maxPlayer = none ∨ k > t.max
    · rw [if_pos hc] at hid ⊢
      have e : id2 = id := (Option.some.inj hid).symm
      subst e
      refine ⟨by simp, hk, ?_⟩
      intro k2 hk2 hl
      rcases List.mem_append.mp hk2 with e | e
      · rcases hc with hc | hc
        · exact absurd hl (h3 hc k2 e)
        · cases hm : t.maxPlayer with
          | none => exact absurd hl (h3 hm k2 e)
          | some i0 =>
            have := (h4 i0 hm).2.2 k2 e hl
            omega
      · rw [List.mem_singleton.mp e]
    · rw [if_neg hc] at hid ⊢
      obtain ⟨a, b, c⟩ := h4 id2 hid
      refine ⟨List.mem_append_left _ a, b, ?_⟩
      intro k2 hk2 hl
      rcases List.mem_append.mp hk2 with e | e
      · exact c k2 e hl
      · rw [List.mem_singleton.mp e]
        have : ¬ (k > t.max) := fun hlt => hc (Or.inr hlt)
        omega

theorem trackInv_foldl (G : Nat → List String) (ks : List Nat) :
    TrackInv G ks ((ks.map (fun k => (k, G k))).foldl trackGroup Track.init) := by
  induction ks using List.reverseRecOn with
  | nil =>
    refine ⟨by simp, ?_, by simp, ?_⟩ <;> intro id hid <;> simp [Track.init] at hid
  | append_singleton ks k ih =>
    rw [List.map_append, List.foldl_append]
    simp only [List.map_cons, List.map_nil, List.foldl_cons, List.foldl_nil]
    rcases hg : G k with _ | ⟨a, _ | ⟨b, r⟩⟩
    · have e : ∀ t, trackGroup t (k, G k) = t := by
        intro t; unfold trackGroup; simp [hg]
      rw [← hg, e]
      exact trackInv_skip G ks _ k ih (by simp [hg])
    · have e : ∀ t, trackGroup t (k, G k) = trackStep t k a := by
        intro t; unfold trackGroup; simp [hg]
      rw [← hg, e]
      exact trackInv_step G ks _ k a ih hg
    · have e : ∀ t, trackGroup t (k, G k) = t := by
        intro t; unfold trackGroup; simp [hg]
      rw [← hg, e]
      exact trackInv_skip G ks _ k ih (by simp [hg])

theorem subs_snd_sublist (ps : List Player) :
    List.Sublist ((subs ps).map Prod.snd) (ps.map Player.ID) := by
  induction ps with
  | nil => exact List.Sublist.slnil
  | cons p rest ih =>
    unfold subs at ih ⊢
    by_cases h : p.Lives ≤ 0
    · simp only [List.filterMap_cons, h, if_true, List.map_cons]
      exact List.Sublist.cons _ ih
    · cases hn : p.Number with
      | none =>
        simp only [List.filterMap_cons, h, if_false, hn, Option.map_none', List.map_cons]
        exact List.Sublist.cons _ ih
      | some n =>
        simp only [List.filterMap_cons, h, if_false, hn, Option.map_some', List.map_cons]
        exact List.Sublist.cons₂ _ ih

theorem subs_nodup (ps : List Player) (hnd : (ps.map Player.ID).Nodup) :
    ((subs ps).map Prod.snd).Nodup :=
  List.Nodup.sublist (subs_snd_sublist ps) hnd

theorem mem_subs (ps : List Player) (n : Nat) (id : String) :
    (n, id) ∈ subs ps ↔ ∃ p ∈ ps, 0 < p.Lives ∧ p.Number = some n ∧ p.ID = id := by
  unfold subs
  simp only [List.mem_filterMap]
  constructor
  · rintro ⟨p, hp, h⟩
    by_cases hl : p.Lives ≤ 0
    · simp [hl] at h
    · cases hn : p.Number with
      | none => simp [hl, hn] at h
      | some k =>
        simp only [hl, if_false, hn, Option.map_some', Option.some.injEq, Prod.mk.injEq] at h
        exact ⟨p, hp, by omega, by rw [hn, h.1], h.2⟩
  · rintro ⟨p, hp, hl, hn, hid⟩
    refine ⟨p, hp, ?_⟩
    have : ¬ p.Lives ≤ 0 := by omega
    simp [this, hn, hid]

theorem idsAt_subs (ps : List Player) (n : Nat) :
    idsAt (subs ps) n = (holders ps n).map Player.ID := by
  induction ps with
  | nil => rfl
  | cons p rest ih =>
    unfold idsAt subs holders at ih ⊢
    by_cases h : p.Lives ≤ 0
    · have h2 : ¬ (0 < p.Lives) := by omega
      simp only [List.filterMap_cons, h, if_true, List.filter_cons, gt_iff_lt, h2, decide_False,
        Bool.false_and]
      exact ih
    · have h2 : 0 < p.Lives := by omega
      cases hn : p.Number with
      | none =>
        simp only [List.filterMap_cons, h, if_false, hn, Option.map_none', List.filter_cons,
          gt_iff_lt, h2, decide_True, Bool.true_and]
        simpa using ih
      | some k =>
        simp only [List.filterMap_cons, h, if_false, hn, Option.map_some', List.filter_cons,
          gt_iff_lt, h2, decide_True, Bool.true_and, Option.some.injEq]
        by_cases hk : k = n
        · simp only [hk, decide_True, if_true, List.map_cons]
          simpa using ih
        · simp only [hk, decide_False]
          simpa using ih

theorem getPlayer_map (f : Player → Player) (hf : ∀ q, (f q).ID = q.ID) (ps : List Player)
    (hnd : (ps.map Player.ID).Nodup) (p : Player) (hp : p ∈ ps) :
    getPlayer (ps.map f) p.ID = some (f p) := by
  induction ps with
  | nil => simp at hp
  | cons q rest ih =>
    have hq : q.ID ∉ rest.map Player.ID := (List.nodup_cons.mp hnd).1
    have hnd2 : (rest.map Player.ID).Nodup := (List.nodup_cons.mp hnd).2
    unfold getPlayer at ih ⊢
    rcases List.mem_cons.mp hp with e | e
    · subst e
      simp [List.find?_cons, hf]
    · have hne : q.ID ≠ p.ID := fun hc => hq (hc ▸ List.mem_map_of_mem Player.ID e)
      simp only [List.map_cons, List.find?_cons, hf, hne, decide_False]
      exact ih hnd2 e

theorem count_toList (o : Option String) (id : String) :
    o.toList.count id = if o = some id then 1 else 0 := by
  cases o with
  | none => simp
  | some x =>
    by_cases h : x = id
    · subst h; simp
    · have h2 : ¬ (id = x) := fun e => h e.symm
      simp [List.count_singleton, h, h2]

/-- The `Lives` of a player after `EvaluateRound`: one less for each `Lives--` on it. -/
theorem livesOf_EvaluateRound (g : Game) (hwf : g.WF) (p : Player) (hp : p ∈ g.Players) :
    livesOf (EvaluateRound g) p.ID
      = some (p.Lives - ((allDecs g.Players).count p.ID : Int)) := by
  unfold livesOf
  rw [EvaluateRound_Players]
  unfold applyDecs
  rw [List.map_map]
  rw [getPlayer_map _ (by intro q; rfl) g.Players hwf p hp]
  rfl

theorem key_of_unique (l : List (Nat × String)) (ks : List Nat)
    (hmem : ∀ k, k ∈ ks ↔ k ∈ l.map Prod.fst) (k : Nat) (h : (idsAt l k).length = 1) :
    k ∈ ks := by
  rw [hmem]
  by_contra hc
  rw [idsAt_eq_nil l k hc] at h
  simp at h

theorem tracked_filed (l : List (Nat × String)) (ks : List Nat) (t : Track)
    (hinv : TrackInv (idsAt l) ks t) (id : String)
    (h : t.minPlayer = some id ∨ t.maxPlayer = some id) :
    ∃ k, (k, id) ∈ l ∧ (idsAt l k).length = 1 := by
  obtain ⟨_, h2, _, h4⟩ := hinv
  rcases h with h | h
  · obtain ⟨_, b, _⟩ := h2 id h
    exact ⟨t.min, (mem_idsAt l t.min id).mp (by rw [b]; simp), by rw [b]; rfl⟩
  · obtain ⟨_, b, _⟩ := h4 id h
    exact ⟨t.max, (mem_idsAt l t.max id).mp (by rw [b]; simp), by rw [b]; rfl⟩

theorem singleton_of_mem (xs : List String) (id : String) (h1 : xs.length = 1) (h2 : id ∈ xs) :
    xs = [id] := by
  rcases xs with _ | ⟨a, _ | ⟨b, r⟩⟩
  · simp at h1
  · simp at h2; rw [h2]
  · simp at h1

theorem tracked_iff (l : List (Nat × String)) (hnd : (l.map Prod.snd).Nodup) (ks : List Nat)
    (hmem : ∀ k, k ∈ ks ↔ k ∈ l.map Prod.fst) (t : Track)
    (hinv : TrackInv (idsAt l) ks t) (n : Nat) (id : String) (h : (n, id) ∈ l)
    (hu : (idsAt l n).length = 1) :
    (t.minPlayer = some id ↔ ∀ k, (idsAt l k).length = 1 → n ≤ k) ∧
    (t.maxPlayer = some id ↔ ∀ k, (idsAt l k).length = 1 → k ≤ n) := by
  obtain ⟨h1, h2, h3, h4⟩ := hinv
  have hn : n ∈ ks := key_of_unique l ks hmem n hu
  have hG : idsAt l n = [id] := singleton_of_mem _ id hu ((mem_idsAt l n id).mpr h)
  constructor
  · constructor
    · intro hm k hk
      obtain ⟨_, b, c⟩ := h2 id hm
      have hf : (t.min, id) ∈ l := (mem_idsAt l t.min id).mp (by rw [b]; simp)
      have e : t.min = n := fst_unique l hnd _ _ id hf h
      rw [← e]
      exact c k (key_of_unique l ks hmem k hk) hk
    · intro hall
      cases hm : t.minPlayer with
      | none => exact absurd hu (h1 hm n hn)
      | some i0 =>
        obtain ⟨_, b, c⟩ := h2 i0 hm
        have le1 : t.min ≤ n := c n hn hu
        have le2 : n ≤ t.min := hall t.min (by rw [b]; rfl)
        have e : t.min = n := by omega
        rw [e, hG] at b
        simp at b
        rw [b]
  · constructor
    · intro hm k hk
      obtain ⟨_, b, c⟩ := h4 id hm
      have hf : (t.max, id) ∈ l := (mem_idsAt l t.max id).mp (by rw [b]; simp)
      have e : t.max = n := fst_unique l hnd _ _ id hf h
      rw [← e]
      exact c k (key_of_unique l ks hmem k hk) hk
    · intro hall
      cases hm : t.maxPlayer with
      | none => exact absurd hu (h3 hm n hn)
      | some i0 =>
        obtain ⟨_, b, c⟩ := h4 i0 hm
        have le1 : n ≤ t.max := c n hn hu
        have le2 : t.max ≤ n := hall t.max (by rw [b]; rfl)
        have e : t.max = n := by omega
        rw [e, hG] at b
        simp at b
        rw [b]

/-- The decrements of one `EvaluateRound`, split into the mismo branch and the two extremes. -/
theorem allDecs_count (ps : List Player) (id : String) :
    ∃ (ks : List Nat) (t : Track), ks.Nodup ∧ (∀ k, k ∈ ks ↔ k ∈ (subs ps).map Prod.fst) ∧
      TrackInv (idsAt (subs ps)) ks t ∧
      (allDecs ps).count id
        = (dupIDs (ks.map (fun k => (k, idsAt (subs ps) k)))).count id
          + (if t.minPlayer = some id then 1 else 0) + (if t.maxPlayer = some id then 1 else 0) := by
  obtain ⟨ks, hks, hmem, heq⟩ := groups_normal (subs ps)
  have hc : collectNumbers ps = ks.map (fun k => (k, idsAt (subs ps) k)) := by
    unfold collectNumbers
    rw [collectNumbers_foldl, heq]
  refine ⟨ks, (ks.map (fun k => (k, idsAt (subs ps) k))).foldl trackGroup Track.init,
    hks, hmem, trackInv_foldl _ ks, ?_⟩
  unfold allDecs
  simp only [hc, List.count_append, count_toList]

theorem filed_iff (ps : List Player) (hnd : (ps.map Player.ID).Nodup) (p : Player)
    (hp : p ∈ ps) (n : Nat) : (n, p.ID) ∈ subs ps ↔ 0 < p.Lives ∧ p.Number = some n := by
  rw [mem_subs]
  constructor
  · rintro ⟨q, hq, hl, hn, hid⟩
    have e : q = p := List.inj_on_of_nodup_map hnd hq hp hid
    subst e
    exact ⟨hl, hn⟩
  · rintro ⟨hl, hn⟩
    exact ⟨p, hp, hl, hn, rfl⟩

/-- A player that is eliminated or has no number is not decremented. -/
theorem count_inactive (ps : List Player) (hnd : (ps.map Player.ID).Nodup) (p : Player)
    (hp : p ∈ ps) (h : p.Lives ≤ 0 ∨ p.Number = none) : (allDecs ps).count p.ID = 0 := by
  obtain ⟨ks, t, hks, hmem, hinv, hc⟩ := allDecs_count ps p.ID
  have hno : ∀ k, (k, p.ID) ∉ subs ps := by
    intro k hk
    obtain ⟨hl, hn⟩ := (filed_iff ps hnd p hp k).mp hk
    rcases h with h | h
    · omega
    · rw [h] at hn; simp at hn
  have habs : p.ID ∉ (subs ps).map Prod.snd := by
    intro hm
    obtain ⟨⟨a, b⟩, hx, hb⟩ := List.mem_map.mp hm
    simp only at hb
    subst hb
    exact hno a hx
  have hmin : ¬ t.minPlayer = some p.ID := fun hm => by
    obtain ⟨k, hk, _⟩ := tracked_filed _ ks t hinv p.ID (Or.inl hm)
    exact hno k hk
  have hmax : ¬ t.maxPlayer = some p.ID := fun hm => by
    obtain ⟨k, hk, _⟩ := tracked_filed _ ks t hinv p.ID (Or.inr hm)
    exact hno k hk
  rw [hc, count_dup_absent _ ks p.ID habs, if_neg hmin, if_neg hmax]

/-- An active player whose number has more than one holder is decremented once. -/
theorem count_shared (ps : List Player) (hnd : (ps.map Player.ID).Nodup) (p : Player)
    (hp : p ∈ ps) (n : Nat) (hl : 0 < p.Lives) (hn : p.Number = some n)
    (hh : 1 < (holders ps n).length) : (allDecs ps).count p.ID = 1 := by
  obtain ⟨ks, t, hks, hmem, hinv, hc⟩ := allDecs_count ps p.ID
  have hf : (n, p.ID) ∈ subs ps := (filed_iff ps hnd p hp n).mpr ⟨hl, hn⟩
  have hlen : 1 < (idsAt (subs ps) n).length := by
    rw [idsAt_subs, List.length_map]; exact hh
  have hnot : ∀ k, (k, p.ID) ∈ subs ps → (idsAt (subs ps) k).length ≠ 1 := by
    intro k hk
    have e : k = n := fst_unique _ (subs_nodup ps hnd) k n p.ID hk hf
    rw [e]; omega
  have hmin : ¬ t.minPlayer = some p.ID := fun hm => by
    obtain ⟨k, hk, hk1⟩ := tracked_filed _ ks t hinv p.ID (Or.inl hm)
    exact hnot k hk hk1
  have hmax : ¬ t.maxPlayer = some p.ID := fun hm => by
    obtain ⟨k, hk, hk1⟩ := tracked_filed _ ks t hinv p.ID (Or.inr hm)
    exact hnot k hk hk1
  rw [hc, count_dup_present _ (subs_nodup ps hnd) ks hks hmem n p.ID hf, if_pos hlen,
    if_neg hmin, if_neg hmax]

/-- An active player who is the only holder of its number is decremented once if that number
is the least among the numbers with one holder, and once if it is the greatest. -/
theorem count_unique (ps : List Player) (hnd : (ps.map Player.ID).Nodup) (p : Player)
    (hp : p ∈ ps) (n : Nat) (hl : 0 < p.Lives) (hn : p.Number = some n)
    (hh : (holders ps n).length = 1) :
    ∃ a b : Nat, (allDecs ps).count p.ID = a + b ∧
      ((∀ k, (holders ps k).length = 1 → n ≤ k) → a = 1) ∧
      (¬ (∀ k, (holders ps k).length = 1 → n ≤ k) → a = 0) ∧
      ((∀ k, (holders ps k).length = 1 → k ≤ n) → b = 1) ∧
      (¬ (∀ k, (holders ps k).length = 1 → k ≤ n) → b = 0) := by
  obtain ⟨ks, t, hks, hmem, hinv, hc⟩ := allDecs_count ps p.ID
  have hf : (n, p.ID) ∈ subs ps := (filed_iff ps hnd p hp n).mpr ⟨hl, hn⟩
  have hlen : ∀ k, (idsAt (subs ps) k).length = (holders ps k).length := by
    intro k; rw [idsAt_subs, List.length_map]
  have hu : (idsAt (subs ps) n).length = 1 := by rw [hlen]; exact hh
  obtain ⟨hmin, hmax⟩ := tracked_iff _ (subs_nodup ps hnd) ks hmem t hinv n p.ID hf hu
  simp only [hlen] at hmin hmax
  have hd : ¬ (1 < (idsAt (subs ps) n).length) := by omega
  rw [count_dup_present _ (subs_nodup ps hnd) ks hks hmem n p.ID hf, if_neg hd] at hc
  refine ⟨if t.minPlayer = some p.ID then 1 else 0, if t.maxPlayer = some p.ID then 1 else 0,
    by rw [hc]; omega, ?_, ?_, ?_, ?_⟩
  · intro h; rw [if_pos (hmin.mpr h)]
  · intro h; rw [if_neg (fun hm => h (hmin.mp hm))]
  · intro h; rw [if_pos (hmax.mpr h)]
  · intro h; rw [if_neg (fun hm => h (hmax.mp hm))]

theorem holders_split (ps : List Player) (n : Nat) (pid : String) :
    (holders ps n).length
      = (ps.filter (fun q =>
          decide (q.ID ≠ pid) && (decide (q.Lives > 0) && decide (q.Number = some n)))).length
        + (ps.filter (fun q =>
          decide (q.ID = pid) && (decide (q.Lives > 0) && decide (q.Number = some n)))).length := by
  unfold holders
  induction ps with
  | nil => rfl
  | cons q rest ih =>
    simp only [List.filter_cons]
    by_cases h1 : q.ID = pid <;>
      by_cases h2 : (decide (q.Lives > 0) && decide (q.Number = some n)) = true <;>
      simp [h1, h2, ih] <;> omega

theorem own_count (ps : List Player) (hnd : (ps.map Player.ID).Nodup) (p : Player)
    (hp : p ∈ ps) (n : Nat) (hl : 0 < p.Lives) (hn : p.Number = some n) :
    (ps.filter (fun q =>
      decide (q.ID = p.ID) && (decide (q.Lives > 0) && decide (q.Number = some n)))).length = 1 := by
  induction ps with
  | nil => simp at hp
  | cons q rest ih =>
    have hq : q.ID ∉ rest.map Player.ID := (List.nodup_cons.mp hnd).1
    have hnd2 : (rest.map Player.ID).Nodup := (List.nodup_cons.mp hnd).2
    rcases List.mem_cons.mp hp with e | e
    · subst e
      have hnil : rest.filter (fun q =>
          decide (q.ID = p.ID) && (decide (q.Lives > 0) && decide (q.Number = some n))) = [] := by
        rw [List.filter_eq_nil_iff]
        intro x hx hc
        simp only [Bool.and_eq_true, decide_eq_true_eq] at hc
        exact hq (hc.1 ▸ List.mem_map_of_mem Player.ID hx)
      simp [List.filter_cons, hl, hn, hnil]
    · have hne : q.ID ≠ p.ID := fun hc => hq (hc ▸ List.mem_map_of_mem Player.ID e)
      simp only [List.filter_cons, hne, decide_False, Bool.false_and]
      exact ih hnd2 e

/-- The holders of the number of an active player are that player and the others. -/
theorem holders_length (g : Game) (hwf : g.WF) (p : Player) (hp : p ∈ g.Players) (n : Nat)
    (hl : 0 < p.Lives) (hn : p.Number = some n) :
    (holders g.Players n).length = others g p + 1 := by
  rw [holders_split g.Players n p.ID, own_count g.Players hwf p hp n hl hn]
  unfold others
  rw [hn]

theorem mem_uniqueNumbers (g : Game) (hwf : g.WF) (k : Nat) :
    k ∈ uniqueNumbers g ↔ (holders g.Players k).length = 1 := by
  unfold uniqueNumbers
  simp only [List.mem_filterMap]
  constructor
  · rintro ⟨q, hq, h⟩
    by_cases hc : q.Lives > 0 ∧ others g q = 0
    · rw [if_pos hc] at h
      rw [holders_length g hwf q hq k hc.1 h, hc.2]
    · rw [if_neg hc] at h
      exact absurd h (by simp)
  · intro h
    have hne : holders g.Players k ≠ [] := by
      intro hc; rw [hc] at h; simp at h
    obtain ⟨q, hq⟩ := List.exists_mem_of_ne_nil _ hne
    unfold holders at hq
    simp only [List.mem_filter, Bool.and_eq_true, decide_eq_true_eq] at hq
    obtain ⟨hq1, hq2, hq3⟩ := hq
    have := holders_length g hwf q hq1 k hq2 hq3
    refine ⟨q, hq1, ?_⟩
    rw [if_pos ⟨hq2, by omega⟩, hq3]

/-- An active player that shares its number with at least one other active player loses
exactly one life. -/
theorem lives_shared (g : Game) (hwf : g.WF) (p : Player) (n : Nat) (hp : p ∈ g.Players)
    (hl : 0 < p.Lives) (hn : p.Number = some n) (ho : 1 ≤ others g p) :
    livesOf (EvaluateRound g) p.ID = some (p.Lives - 1) := by
  rw [livesOf_EvaluateRound g hwf p hp]
  have hh : 1 < (holders g.Players n).length := by
    rw [holders_length g hwf p hp n hl hn]; omega
  rw [count_shared g.Players hwf p hp n hl hn hh]
  rfl

/-- A player that is eliminated or has no number keeps its lives. -/
theorem lives_inactive (g : Game) (hwf : g.WF) (p : Player) (hp : p ∈ g.Players)
    (h : p.Lives ≤ 0 ∨ p.Number = none) :
    livesOf (EvaluateRound g) p.ID = some p.Lives := by
  rw [livesOf_EvaluateRound g hwf p hp, count_inactive g.Players hwf p hp h]
  simp

/-- An active player whose number nobody else submitted loses one life if the number is the
least unique number and one life if it is the greatest. -/
theorem lives_unique (g : Game) (hwf : g.WF) (p : Player) (n : Nat) (hp : p ∈ g.Players)
    (hl : 0 < p.Lives) (hn : p.Number = some n) (hu : others g p = 0) :
    livesOf (EvaluateRound g) p.ID
      = some (p.Lives - (if ∀ k ∈ uniqueNumbers g, n ≤ k then 1 else 0)
                      - (if ∀ k ∈ uniqueNumbers g, k ≤ n then 1 else 0)) := by
  rw [livesOf_EvaluateRound g hwf p hp]
  have hh : (holders g.Players n).length = 1 := by
    rw [holders_length g hwf p hp n hl hn, hu]
  obtain ⟨a, b, hc, ha1, ha0, hb1, hb0⟩ := count_unique g.Players hwf p hp n hl hn hh
  have e1 : (∀ k ∈ uniqueNumbers g, n ≤ k) ↔ (∀ k, (holders g.Players k).length = 1 → n ≤ k) := by
    constructor
    · intro h k hk; exact h k ((mem_uniqueNumbers g hwf k).mpr hk)
    · intro h k hk; exact h k ((mem_uniqueNumbers g hwf k).mp hk)
  have e2 : (∀ k ∈ uniqueNumbers g, k ≤ n) ↔ (∀ k, (holders g.Players k).length = 1 → k ≤ n) := by
    constructor
    · intro h k hk; exact h k ((mem_uniqueNumbers g hwf k).mpr hk)
    · intro h k hk; exact h k ((mem_uniqueNumbers g hwf k).mp hk)
  rw [hc]
  congr 1
  by_cases c1 : ∀ k ∈ uniqueNumbers g, n ≤ k <;> by_cases c2 : ∀ k ∈ uniqueNumbers g, k ≤ n
  · rw [if_pos c1, if_pos c2, ha1 (e1.mp c1), hb1 (e2.mp c2)]; push_cast; ring
  · rw [if_pos c1, if_neg c2, ha1 (e1.mp c1), hb0 (fun h => c2 (e2.mpr h))]; push_cast; ring
  · rw [if_neg c1, if_pos c2, ha0 (fun h => c1 (e1.mpr h)), hb1 (e2.mp c2)]; push_cast; ring
  · rw [if_neg c1, if_neg c2, ha0 (fun h => c1 (e1.mpr h)), hb0 (fun h => c2 (e2.mpr h))]
    push_cast; ring

/-- C1. In `EvaluateRound`, an active player (Lives > 0, Number set) whose number no other
active player submitted loses one life if that number is the smallest unique number, plus one
life if it is the largest unique number, and nothing otherwise; when there is exactly one
unique value that player loses two lives. -/
theorem EvaluateRound_extremes_rule (g : Game) (hwf : g.WF) (p : Player) (n : Nat)
    (hp : p ∈ g.Players) (hl : 0 < p.Lives) (hn : p.Number = some n) (hu : others g p = 0) :
    livesOf (EvaluateRound g) p.ID
        = some (p.Lives - (if ∀ k ∈ uniqueNumbers g, n ≤ k then 1 else 0)
                        - (if ∀ k ∈ uniqueNumbers g, k ≤ n then 1 else 0))
      ∧ ((uniqueNumbers g).length = 1 → livesOf (EvaluateRound g) p.ID = some (p.Lives - 2)) := by
  have main := lives_unique g hwf p n hp hl hn hu
  refine ⟨main, ?_⟩
  intro h1
  have hmem : n ∈ uniqueNumbers g := by
    rw [mem_uniqueNumbers g hwf, holders_length g hwf p hp n hl hn, hu]
  have hall : ∀ k ∈ uniqueNumbers g, k = n := by
    intro k hk
    rcases hU : uniqueNumbers g with _ | ⟨a, _ | ⟨b, r⟩⟩
    · rw [hU] at h1; simp at h1
    · rw [hU] at hk hmem
      simp at hk hmem
      rw [hk, hmem]
    · rw [hU] at h1; simp at h1
  have c1 : ∀ k ∈ uniqueNumbers g, n ≤ k := fun k hk => by rw [hall k hk]
  have c2 : ∀ k ∈ uniqueNumbers g, k ≤ n := fun k hk => by rw [hall k hk]
  rw [main, if_pos c1, if_pos c2]
  congr 1
  ring

/-- Scenario A: 3, 7, 7 at 7 lives end at 5, 6, 6; the player with 3 is the only unique value. -/
theorem EvaluateRound_extremes_rule_witness :
    scenarioA.WF ∧ others scenarioA scenarioA_first = 0 ∧
      livesOf (EvaluateRound scenarioA) "A" = some 5 ∧
      (EvaluateRound scenarioA).Players.map Player.Lives = [5, 6, 6] :=
  ⟨by decide, by decide,
    (EvaluateRound_extremes_rule scenarioA (by decide) scenarioA_first 3 (by decide) (by decide)
      rfl (by decide)).2 (by decide),
    by decide⟩

/-- C2. An active player whose submitted number was submitted by exactly one other active
player ends `EvaluateRound` with exactly one life fewer than before. -/
theorem EvaluateRound_mismo_pair (g : Game) (hwf : g.WF) (p : Player) (n : Nat)
    (hp : p ∈ g.Players) (hl : 0 < p.Lives) (hn : p.Number = some n) (ho : others g p = 1) :
    livesOf (EvaluateRound g) p.ID = some (p.Lives - 1) :=
  lives_shared g hwf p n hp hl hn (by omega)

/-- Scenario B: 1, 5, 5, 9 at 7 lives all end at 6. -/
theorem EvaluateRound_mismo_pair_witness :
    scenarioB.WF ∧ others scenarioB scenarioB_second = 1 ∧
      livesOf (EvaluateRound scenarioB) "B" = some 6 ∧
      (EvaluateRound scenarioB).Players.map Player.Lives = [6, 6, 6, 6] :=
  ⟨by decide, by decide,
    EvaluateRound_mismo_pair scenarioB (by decide) scenarioB_second 5 (by decide) (by decide)
      rfl (by decide),
    by decide⟩

/-- C3 fails: with three active players on the same number, each of them loses a life. -/
theorem EvaluateRound_three_way_loses :
    threeWay.WF ∧ threeWay_first ∈ threeWay.Players ∧ 0 < threeWay_first.Lives ∧
      threeWay_first.Number = some 4 ∧ 2 ≤ others threeWay threeWay_first ∧
      livesOf (EvaluateRound threeWay) threeWay_first.ID ≠ some threeWay_first.Lives ∧
      (EvaluateRound threeWay).Players.map Player.Lives = [6, 6, 6] := by
  decide

/-- C3, amended. An active player whose submitted number was submitted by two or more other
active players (three or more holders) loses exactly one life in `EvaluateRound`, as in a
group of two. -/
theorem EvaluateRound_group_of_three (g : Game) (hwf : g.WF) (p : Player) (n : Nat)
    (hp : p ∈ g.Players) (hl : 0 < p.Lives) (hn : p.Number = some n) (ho : 2 ≤ others g p) :
    livesOf (EvaluateRound g) p.ID = some (p.Lives - 1) :=
  lives_shared g hwf p n hp hl hn (by omega)

/-- Three players at 7 lives on the same number: the first ends at 6. -/
theorem EvaluateRound_group_of_three_witness :
    threeWay.WF ∧ 2 ≤ others threeWay threeWay_first ∧
      livesOf (EvaluateRound threeWay) "A" = some 6 :=
  ⟨by decide, by decide,
    EvaluateRound_group_of_three threeWay (by decide) threeWay_first 4 (by decide) (by decide)
      rfl (by decide)⟩

/-- C4 fails: every player starts with Lives >= 0 and one ends below 0. -/
theorem EvaluateRound_below_zero :
    (∀ q ∈ lastLife.Players, 0 ≤ q.Lives) ∧
      livesOf (EvaluateRound lastLife) "A" = some (-1) ∧
      ¬ (∀ q ∈ (EvaluateRound lastLife).Players, 0 ≤ q.Lives) := by
  decide

/-- C4, amended. In a game in which every player has Lives >= 0, every player has
Lives >= -1 after `EvaluateRound`, and Lives < 0 exactly for a player that had one life left
and is both the smallest and the largest unique number. -/
theorem EvaluateRound_lives_floor (g : Game) (hwf : g.WF)
    (h0 : ∀ q ∈ g.Players, 0 ≤ q.Lives) (p : Player) (hp : p ∈ g.Players) :
    ∃ v : Int, livesOf (EvaluateRound g) p.ID = some v ∧ -1 ≤ v ∧
      (v < 0 ↔ (p.Lives = 1 ∧ others g p = 0 ∧
        ∃ n, p.Number = some n ∧ (∀ k ∈ uniqueNumbers g, n ≤ k)
          ∧ (∀ k ∈ uniqueNumbers g, k ≤ n))) := by
  have hp0 := h0 p hp
  by_cases hl : p.Lives ≤ 0
  · refine ⟨p.Lives, lives_inactive g hwf p hp (Or.inl hl), by omega, ?_⟩
    constructor
    · intro h; omega
    · rintro ⟨h, _⟩; omega
  · have hl2 : 0 < p.Lives := by omega
    cases hn : p.Number with
    | none =>
      refine ⟨p.Lives, lives_inactive g hwf p hp (Or.inr hn), by omega, ?_⟩
      constructor
      · intro h; omega
      · rintro ⟨_, _, n, h, _⟩; simp at h
    | some n =>
      by_cases ho : others g p = 0
      · refine ⟨_, lives_unique g hwf p n hp hl2 hn ho, ?_, ?_⟩
        · split <;> split <;> omega
        · constructor
          · intro h
            by_cases c1 : ∀ k ∈ uniqueNumbers g, n ≤ k <;>
              by_cases c2 : ∀ k ∈ uniqueNumbers g, k ≤ n
            · rw [if_pos c1, if_pos c2] at h
              exact ⟨by omega, ho, n, rfl, c1, c2⟩
            · rw [if_pos c1, if_neg c2] at h; omega
            · rw [if_neg c1, if_pos c2] at h; omega
            · rw [if_neg c1, if_neg c2] at h; omega
          · rintro ⟨h1, _, m, hm, c1, c2⟩
            have e : m = n := (Option.some.inj hm).symm
            subst e
            rw [if_pos c1, if_pos c2]
            omega
      · refine ⟨_, lives_shared g hwf p n hp hl2 hn (by omega), by omega, ?_⟩
        constructor
        · intro h; omega
        · rintro ⟨_, h, _⟩; exact absurd h ho

/-- The player with one life left in `lastLife` ends at -1, the floor. -/
theorem EvaluateRound_lives_floor_witness :
    lastLife.WF ∧ (∀ q ∈ lastLife.Players, 0 ≤ q.Lives) ∧
      ∃ v : Int, livesOf (EvaluateRound lastLife) lastLife_first.ID = some v ∧ -1 ≤ v ∧
        (v < 0 ↔ (lastLife_first.Lives = 1 ∧ others lastLife lastLife_first = 0 ∧
          ∃ n, lastLife_first.Number = some n ∧ (∀ k ∈ uniqueNumbers lastLife, n ≤ k)
            ∧ (∀ k ∈ uniqueNumbers lastLife, k ≤ n))) :=
  ⟨by decide, by decide,
    EvaluateRound_lives_floor lastLife (by decide) (by decide) lastLife_first (by decide)⟩

theorem getPlayer_update (ps : List Player) (playerID : String) (f : Player → Player)
    (hf : ∀ q, (f q).ID = q.ID) :
    getPlayer (ps.map (fun p => if p.ID = playerID then f p else p)) playerID
      = (getPlayer ps playerID).map f := by
  unfold getPlayer
  induction ps with
  | nil => rfl
  | cons q rest ih =>
    by_cases h : q.ID = playerID
    · simp [List.find?_cons, h, hf]
    · simp only [List.map_cons, List.find?_cons, h, if_false, decide_False]
      exact ih

theorem getPlayer_update_other (ps : List Player) (playerID id : String) (f : Player → Player)
    (hf : ∀ q, (f q).ID = q.ID) (hne : id ≠ playerID) :
    getPlayer (ps.map (fun p => if p.ID = playerID then f p else p)) id
      = getPlayer ps id := by
  unfold getPlayer
  induction ps with
  | nil => rfl
  | cons q rest ih =>
    have hid : (if q.ID = playerID then f q else q).ID = q.ID := by
      split
      · exact hf q
      · rfl
    rw [List.map_cons, List.find?_cons, List.find?_cons, hid]
    by_cases h3 : q.ID = id
    · have h4 : ¬ (q.ID = playerID) := fun e => hne (h3.symm.trans e)
      rw [if_neg h4]
      simp [h3]
    · simp only [h3, decide_False]
      exact ih

theorem SubmitNumber_missing (g : Game) (playerID : String) (number : Nat)
    (h : getPlayer g.Players playerID = none) :
    SubmitNumber g playerID number = (g, some "player not found") := by
  unfold SubmitNumber
  rw [h]

theorem SubmitNumber_eliminated (g : Game) (playerID : String) (number : Nat) (pl : Player)
    (h : getPlayer g.Players playerID = some pl) (hl : pl.Lives ≤ 0) :
    SubmitNumber g playerID number = (g, some "player is eliminated") := by
  unfold SubmitNumber
  rw [h]
  simp only [hl, if_true]

theorem SubmitNumber_recorded (g : Game) (playerID : String) (number : Nat) (pl : Player)
    (h : getPlayer g.Players playerID = some pl) (hl : 0 < pl.Lives) :
    SubmitNumber g playerID number
      = ({ g with Players := g.Players.map (fun p =>
          if p.ID = playerID then { p with Number := some number, HasSubmitted := true }
          else p) }, none) := by
  unfold SubmitNumber
  rw [h]
  have : ¬ (pl.Lives ≤ 0) := by omega
  simp only [this, if_false]

/-- C6 fails: `SubmitNumber` returns nil in state `Waiting`, and returns nil for a player
that has already submitted this round. -/
theorem SubmitNumber_unguarded :
    (lobby.State ≠ GameState.Playing ∧ (SubmitNumber lobby "A" 3).2 = none ∧
      livesOf lobby "A" = some 7) ∧
    ((getPlayer scenarioA.Players "A").map Player.HasSubmitted = some true ∧
      (SubmitNumber scenarioA "A" 9).2 = none ∧
      (getPlayer (SubmitNumber scenarioA "A" 9).1.Players "A").map Player.Number
        = some (some 9)) := by
  decide

/-- C6, amended. `SubmitNumber` returns nil exactly when the player id exists and the player
has Lives > 0, whatever the State and whether or not the player has already submitted; it
then records Number and HasSubmitted for that player and leaves the other entries, the ID
and the State as they were.  In every other case it returns an error and leaves the game
unchanged. -/
theorem SubmitNumber_outcome (g : Game) (playerID : String) (number : Nat) :
    ((SubmitNumber g playerID number).2 = none ↔
        ∃ p, getPlayer g.Players playerID = some p ∧ 0 < p.Lives) ∧
    (∀ p, getPlayer g.Players playerID = some p → 0 < p.Lives →
        getPlayer (SubmitNumber g playerID number).1.Players playerID
            = some { p with Number := some number, HasSubmitted := true } ∧
        (∀ id, id ≠ playerID →
          getPlayer (SubmitNumber g playerID number).1.Players id = getPlayer g.Players id) ∧
        (SubmitNumber g playerID number).1.State = g.State ∧
        (SubmitNumber g playerID number).1.ID = g.ID) ∧
    ((SubmitNumber g playerID number).2 ≠ none → (SubmitNumber g playerID number).1 = g) := by
  cases hg : getPlayer g.Players playerID with
  | none =>
    rw [SubmitNumber_missing g playerID number hg]
    refine ⟨?_, ?_, fun _ => rfl⟩
    · constructor
      · intro h; exact absurd h (by simp)
      · rintro ⟨p, hp, _⟩; exact absurd hp (by simp)
    · intro p hp; exact absurd hp (by simp)
  | some pl =>
    by_cases hl : pl.Lives ≤ 0
    · rw [SubmitNumber_eliminated g playerID number pl hg hl]
      refine ⟨?_, ?_, fun _ => rfl⟩
      · constructor
        · intro h; exact absurd h (by simp)
        · rintro ⟨p, hp, hpl⟩
          have e : pl = p := Option.some.inj hp
          subst e
          omega
      · intro p hp hpl
        have e : pl = p := Option.some.inj hp
        subst e
        omega
    · have hl2 : 0 < pl.Lives := by omega
      rw [SubmitNumber_recorded g playerID number pl hg hl2]
      refine ⟨?_, ?_, fun h => absurd rfl h⟩
      · constructor
        · intro _; exact ⟨pl, rfl, hl2⟩
        · intro _; rfl
      · intro p hp _
        have e : pl = p := Option.some.inj hp
        subst e
        refine ⟨?_, ?_, rfl, rfl⟩
        · show getPlayer (g.Players.map (fun p =>
            if p.ID = playerID then { p with Number := some number, HasSubmitted := true }
            else p)) playerID = _
          rw [getPlayer_update g.Players playerID
            (fun q => { q with Number := some number, HasSubmitted := true }) (fun _ => rfl), hg]
          rfl
        · intro id hne
          exact getPlayer_update_other g.Players playerID id
            (fun q => { q with Number := some number, HasSubmitted := true }) (fun _ => rfl) hne

/-- In the lobby (state `Waiting`) the submission of the player at 7 lives is recorded. -/
theorem SubmitNumber_outcome_witness :
    (SubmitNumber lobby "A" 3).2 = none ∧
      getPlayer (SubmitNumber lobby "A" 3).1.Players "A"
        = some { ID := "A", Name := "a", Lives := 7, Number := some 3, IsHost := true,
                 HasSubmitted := true } :=
  ⟨(SubmitNumber_outcome lobby "A" 3).1.mpr ⟨_, rfl, by decide⟩,
    ((SubmitNumber_outcome lobby "A" 3).2.1 _ rfl (by decide)).1⟩

/-- C7. After `EvaluateRound` the State is `Finished` whenever at most one player has
Lives > 0 once the decrements of the round are applied, and it is the State from before
whenever two or more players still have Lives > 0. -/
theorem EvaluateRound_State (g : Game) :
    (activePlayers (EvaluateRound g).Players ≤ 1 →
        (EvaluateRound g).State = GameState.Finished) ∧
    (2 ≤ activePlayers (EvaluateRound g).Players → (EvaluateRound g).State = g.State) := by
  have e : (EvaluateRound g).State
      = if activePlayers (EvaluateRound g).Players ≤ 1 then GameState.Finished else g.State := rfl
  constructor
  · intro h; rw [e, if_pos h]
  · intro h; rw [e, if_neg (by omega)]

/-- In scenario A three players stay active and the State stays `Playing`; in `lastLife`
with the other two players at one life too, nobody is left and the State is `Finished`. -/
theorem EvaluateRound_State_witness :
    (EvaluateRound scenarioA).State = GameState.Playing ∧
      (EvaluateRound allOnLastLife).State = GameState.Finished :=
  ⟨(EvaluateRound_State scenarioA).2 (by decide),
    (EvaluateRound_State allOnLastLife).1 (by decide)⟩

theorem subs_congr (ps ps' : List Player) (h : List.Forall₂ samePlayerButEliminated ps ps') :
    subs ps = subs ps' := by
  induction h with
  | nil => rfl
  | @cons p q l1 l2 hpq _ ih =>
    obtain ⟨hid, _, hlv, _, hact⟩ := hpq
    unfold subs at ih ⊢
    simp only [List.filterMap_cons]
    by_cases hl : p.Lives ≤ 0
    · have hl2 : q.Lives ≤ 0 := by omega
      simp only [hl, hl2, if_true]
      exact ih
    · have hl2 : ¬ q.Lives ≤ 0 := by omega
      have hn := (hact (by omega)).1
      simp only [hl, hl2, if_false, hn, hid, ih]

theorem allDecs_congr (ps ps' : List Player) (h : subs ps = subs ps') :
    allDecs ps = allDecs ps' := by
  have e : collectNumbers ps = collectNumbers ps' := by
    unfold collectNumbers
    rw [collectNumbers_foldl, collectNumbers_foldl, h]
  unfold allDecs
  rw [e]

theorem reset_congr (ds : List String) (ps ps' : List Player)
    (h : List.Forall₂ samePlayerButEliminated ps ps') :
    (applyDecs ds ps).map resetPlayer = (applyDecs ds ps').map resetPlayer := by
  induction h with
  | nil => rfl
  | @cons p q l1 l2 hpq _ ih =>
    obtain ⟨hid, hname, hlv, hhost, _⟩ := hpq
    unfold applyDecs at ih ⊢
    simp only [List.map_cons, List.map_map] at ih ⊢
    rw [ih]
    congr 1
    simp only [resetPlayer, hid, hname, hlv, hhost]

theorem AllPlayersSubmitted_congr (ps ps' : List Player)
    (h : List.Forall₂ samePlayerButEliminated ps ps') :
    ps.all (fun p => !(decide (p.Lives > 0) && !p.HasSubmitted))
      = ps'.all (fun p => !(decide (p.Lives > 0) && !p.HasSubmitted)) := by
  induction h with
  | nil => rfl
  | @cons p q l1 l2 hpq _ ih =>
    obtain ⟨_, _, hlv, _, hact⟩ := hpq
    simp only [List.all_cons, ih]
    congr 1
    by_cases hl : 0 < p.Lives
    · rw [(hact hl).2, hlv]
    · have hl2 : ¬ (0 < q.Lives) := by omega
      simp [hl, hl2]

/-- `EvaluateRound` cannot tell apart two games that differ only in the submission fields of
eliminated players. -/
theorem EvaluateRound_congr (g g' : Game) (h : SameButEliminated g g') :
    EvaluateRound g = EvaluateRound g' := by
  obtain ⟨hid, hst, hps⟩ := h
  have hP : (EvaluateRound g).Players = (EvaluateRound g').Players := by
    rw [EvaluateRound_Players, EvaluateRound_Players,
      allDecs_congr _ _ (subs_congr _ _ hps)]
    exact reset_congr _ _ _ hps
  have hS : (EvaluateRound g).State = (EvaluateRound g').State := by
    show (if activePlayers (EvaluateRound g).Players ≤ 1 then GameState.Finished else g.State)
      = (if activePlayers (EvaluateRound g').Players ≤ 1 then GameState.Finished else g'.State)
    rw [hP, hst]
  have hI : (EvaluateRound g).ID = (EvaluateRound g').ID := hid
  have ext : ∀ a b : Game, a.ID = b.ID → a.Players = b.Players → a.State = b.State → a = b := by
    intro a b h1 h2 h3
    cases a
    cases b
    simp_all
  exact ext _ _ hI hP hS

/-- C9. Eliminated players are excluded from everything: `EvaluateRound` never changes the
Lives of a player with Lives <= 0, and for two games that differ only in the Number and
HasSubmitted fields of players with Lives <= 0, `EvaluateRound` yields the same Lives for
every player and the same State, and `AllPlayersSubmitted` returns the same boolean. -/
theorem eliminated_excluded (g g' : Game) (hwf : g.WF) (h : SameButEliminated g g') :
    (∀ p ∈ g.Players, p.Lives ≤ 0 → livesOf (EvaluateRound g) p.ID = some p.Lives) ∧
    (∀ id, livesOf (EvaluateRound g) id = livesOf (EvaluateRound g') id) ∧
    (EvaluateRound g).State = (EvaluateRound g').State ∧
    AllPlayersSubmitted g = AllPlayersSubmitted g' := by
  refine ⟨?_, ?_, ?_, ?_⟩
  · intro p hp hl
    exact lives_inactive g hwf p hp (Or.inl hl)
  · intro id
    rw [EvaluateRound_congr g g' h]
  · rw [EvaluateRound_congr g g' h]
  · exact AllPlayersSubmitted_congr _ _ h.2.2

/-- The stale submission of the eliminated player of `withStale` changes nothing. -/
theorem eliminated_excluded_witness :
    withStale.WF ∧
    (∀ p ∈ withStale.Players, p.Lives ≤ 0 →
      livesOf (EvaluateRound withStale) p.ID = some p.Lives) ∧
    (∀ id, livesOf (EvaluateRound withStale) id = livesOf (EvaluateRound withoutStale) id) ∧
    (EvaluateRound withStale).State = (EvaluateRound withoutStale).State ∧
    AllPlayersSubmitted withStale = AllPlayersSubmitted withoutStale :=
  ⟨by decide,
    eliminated_excluded withStale withoutStale (by decide)
      ⟨rfl, rfl,
        List.Forall₂.cons ⟨rfl, rfl, rfl, rfl, fun _ => ⟨rfl, rfl⟩⟩
          (List.Forall₂.cons ⟨rfl, rfl, rfl, rfl, fun _ => ⟨rfl, rfl⟩⟩
            (List.Forall₂.cons ⟨rfl, rfl, rfl, rfl, fun _ => ⟨rfl, rfl⟩⟩
              (List.Forall₂.cons ⟨rfl, rfl, rfl, rfl, fun hc => absurd hc (by decide)⟩
                List.Forall₂.nil)))⟩⟩

end game

namespace wsmain

theorem run_append (g : Game) (ops : List Op) (op : Op) :
    run g (ops ++ [op]) = applyOp (run g ops) op := by
  unfold run
  rw [List.foldl_append]
  rfl

theorem run_no_adds (ops : List Op) (g : Game) (hg : g.Players = []) (h : addsIn ops = 0) :
    (run g ops).Players = [] := by
  induction ops generalizing g with
  | nil => exact hg
  | cons op rest ih =>
    cases op with
    | add id name => simp [addsIn] at h
    | remove playerID =>
      have h2 : addsIn rest = 0 := h
      have hg2 : (applyOp g (Op.remove playerID)).Players = [] := by
        show (removePlayer g playerID).Players = []
        unfold removePlayer
        simp [hg]
      exact ih (applyOp g (Op.remove playerID)) hg2 h2

/-- C5: the code at the failing input.  The last outstanding submission of a game in state
"playing" is recorded; `resolveRound` leaves one player with Lives > 0 and sets the State to
"gameOver"; `submitNumber` then overwrites it, and the State it returns with is "roundEnd". -/
theorem submitNumber_overwrites_gameOver :
    lastSubmission.State = "playing" ∧
    (resolveRound lastSubmission_recorded).State = "gameOver" ∧
    activePlayers (submitNumber lastSubmission "C" 5).Players = 1 ∧
    (submitNumber lastSubmission "C" 5).Players.map Player.Lives = [0, 0, 7] ∧
    (submitNumber lastSubmission "C" 5).State = "roundEnd" := by
  decide

/-- C10 fails: after the only player has been removed, the second player ever added is
made host. -/
theorem addPlayer_second_is_host :
    addsIn [Op.add "p1" "ann", Op.remove "p1"] = 1 ∧
    (addPlayer (run (createGame "g") [Op.add "p1" "ann", Op.remove "p1"]) "p2" "bob").2.IsHost
      = true ∧
    ¬ ((addPlayer (run (createGame "g") [Op.add "p1" "ann", Op.remove "p1"]) "p2" "bob").2.IsHost
        = true ↔ addsIn [Op.add "p1" "ann", Op.remove "p1"] = 0) := by
  decide

/-- C10, amended. For every game made by `createGame` and every sequence of `addPlayer` and
`removePlayer` calls on it, a player returned by `addPlayer` has 7 lives and has
IsHost = true if and only if the game holds no player at the time of the call; this is so
for the first player ever added. -/
theorem addPlayer_host_iff_empty (gid : String) (ops : List Op) (id name : String) :
    (addPlayer (run (createGame gid) ops) id name).2.Lives = 7 ∧
    ((addPlayer (run (createGame gid) ops) id name).2.IsHost = true
      ↔ (run (createGame gid) ops).Players = []) ∧
    (addsIn ops = 0 → (addPlayer (run (createGame gid) ops) id name).2.IsHost = true) := by
  have key : (addPlayer (run (createGame gid) ops) id name).2.IsHost = true
      ↔ (run (createGame gid) ops).Players = [] := by
    show decide ((run (createGame gid) ops).Players.length = 0) = true ↔ _
    rw [decide_eq_true_eq, List.length_eq_zero]
  refine ⟨rfl, key, ?_⟩
  intro h
  exact key.mpr (run_no_adds ops (createGame gid) rfl h)

/-- The first player added to a new game is host; a player added after it is not. -/
theorem addPlayer_host_iff_empty_witness :
    (addPlayer (run (createGame "g") []) "p1" "ann").2.IsHost = true ∧
    (addPlayer (run (createGame "g") [Op.add "p1" "ann"]) "p2" "bob").2.IsHost ≠ true :=
  ⟨(addPlayer_host_iff_empty "g" [] "p1" "ann").2.2 (by decide),
    fun h => absurd ((addPlayer_host_iff_empty "g" [Op.add "p1" "ann"] "p2" "bob").2.1.mp h)
      (by decide)⟩

end wsmain

namespace server

/-- C8: the code at the failing input.  Three submissions complete the round
(RoundCompleted is true, lives 6, 7, 6); a further `handleSubmitNumber` request, made before
any `handleNextRound`, is accepted and runs `resolveRound` again (lives 5, 7, 5). -/
theorem handleSubmitNumber_resolves_again :
    resolvedOnce.RoundCompleted = true ∧
    resolvedOnce.Players.map Player.Lives = [6, 7, 6] ∧
    (handleSubmitNumber resolvedOnce "B" 5).2 = 200 ∧
    (handleSubmitNumber resolvedOnce "B" 5).1.RoundCompleted = true ∧
    (handleSubmitNumber resolvedOnce "B" 5).1.Players.map Player.Lives = [5, 7, 5] := by
  decide

end server

namespace wsmain

theorem startNextRound_skip (g : Game)
    (h : g.State ≠ "roundEnd" ∧ g.State ≠ "gameOver") : startNextRound g = g := by
  unfold startNextRound
  rw [if_pos h]

/-- The increment of `startNextRound` at the greatest Go `int` wraps around to the least. -/
theorem startNextRound_wraps :
    (startNextRound roundAtMax).Round = -9223372036854775808 := by
  decide

/-- C11. For every game in state "roundEnd" whose Round is a Go `int` below the greatest
one (Round counts the rounds from 1), `startNextRound` sets State to "playing" and increases
Round by exactly one, and a second `startNextRound` call made immediately afterwards changes
nothing: Round, State and every player are as after the first call.  Without the bound the
State and the second call are the same, and Round is the wrapped-around `g.Round + 1`. -/
theorem startNextRound_once (g : Game) (h : g.State = "roundEnd") :
    (startNextRound g).State = "playing" ∧
    (startNextRound g).Round = wrapInt (g.Round + 1) ∧
    (-9223372036854775808 ≤ g.Round → g.Round < 9223372036854775807 →
      (startNextRound g).Round = g.Round + 1) ∧
    startNextRound (startNextRound g) = startNextRound g := by
  have e : startNextRound g
      = { g with
          Players := g.Players.map (fun p =>
            if p.Lives > 0 then { p with HasPlayed := false, Number := 0 } else p),
          Round := wrapInt (g.Round + 1), State := "playing" } := by
    unfold startNextRound
    have h1 : ¬ (g.State ≠ "roundEnd" ∧ g.State ≠ "gameOver") := fun c => c.1 h
    have h2 : g.State ≠ "gameOver" := by rw [h]; decide
    rw [if_neg h1]
    simp only [h2, ne_eq, not_false_eq_true, if_true]
  have hr : (startNextRound g).Round = wrapInt (g.Round + 1) := by rw [e]
  refine ⟨by rw [e], hr, ?_, ?_⟩
  · intro hlo hhi
    rw [hr]
    unfold wrapInt
    omega
  · have hs : (startNextRound g).State = "playing" := by rw [e]
    have hskip : (startNextRound g).State ≠ "roundEnd" ∧
        (startNextRound g).State ≠ "gameOver" := by
      rw [hs]; decide
    exact startNextRound_skip (startNextRound g) hskip

/-- After the round `roundOver` (Round 4) the first call gives Round 5 in state "playing",
and the second call gives the same game. -/
theorem startNextRound_once_witness :
    roundOver.State = "roundEnd" ∧
    (startNextRound roundOver).State = "playing" ∧
    (startNextRound roundOver).Round = 5 ∧
    startNextRound (startNextRound roundOver) = startNextRound roundOver :=
  ⟨by decide, (startNextRound_once roundOver (by decide)).1,
    (startNextRound_once roundOver (by decide)).2.2.1 (by decide) (by decide),
    (startNextRound_once roundOver (by decide)).2.2.2⟩

/-- C12. The "start" message moves a game from "waiting" to "playing" exactly when the
sender is the host, the State is "waiting" and the game has at least 3 players; otherwise
(2 players, a sender that is not the host, a State that is not "waiting") the start is
rejected with an error and the game is unchanged; with exactly 3 players it succeeds. -/
theorem handleStart_outcome (g : Game) (player : Option Player) :
    ((handleStart g player).2 = none ↔
        (∃ p, player = some p ∧ p.IsHost = true) ∧ g.State = "waiting"
          ∧ 3 ≤ g.Players.length) ∧
    ((handleStart g player).2 = none →
        (handleStart g player).1 = { g with State := "playing" }) ∧
    ((handleStart g player).2 ≠ none → (handleStart g player).1 = g) ∧
    (g.Players.length = 2 → (handleStart g player).2 ≠ none) ∧
    ((∃ p, player = some p ∧ p.IsHost = true) → g.State = "waiting" →
        g.Players.length = 3 → (handleStart g player).1.State = "playing") := by
  have key : (handleStart g player).2 = none ↔
      (∃ p, player = some p ∧ p.IsHost = true) ∧ g.State = "waiting"
        ∧ 3 ≤ g.Players.length := by
    unfold handleStart
    cases player with
    | none => simp
    | some p =>
      by_cases h1 : p.IsHost = false
      · simp [h1]
      · by_cases h2 : g.State ≠ "waiting"
        · simp [h1, h2]
        · by_cases h3 : g.Players.length < 3
          · have : ¬ (3 ≤ g.Players.length) := by omega
            simp [h1, h2, h3, this]
          · have h3b : 3 ≤ g.Players.length := by omega
            have h2b : g.State = "waiting" := by
              by_contra c; exact h2 c
            simp [h1, h2b, h3, h3b]
  have ok : (handleStart g player).2 = none →
      (handleStart g player).1 = { g with State := "playing" } := by
    intro hn
    obtain ⟨⟨p, hp, hh⟩, hs, hl⟩ := key.mp hn
    unfold handleStart
    subst hp
    have h3 : ¬ (g.Players.length < 3) := by omega
    simp [hh, hs, h3]
  have bad : (handleStart g player).2 ≠ none → (handleStart g player).1 = g := by
    unfold handleStart
    cases player with
    | none => intro _; rfl
    | some p =>
      by_cases h1 : p.IsHost = false
      · simp [h1]
      · by_cases h2 : g.State ≠ "waiting"
        · simp [h1, h2]
        · by_cases h3 : g.Players.length < 3
          · simp [h1, h2, h3]
          · simp [h1, h2, h3]
  refine ⟨key, ok, bad, ?_, ?_⟩
  · intro h2 hn
    have := (key.mp hn).2.2
    omega
  · intro hp hs hl
    rw [ok (key.mpr ⟨hp, hs, by omega⟩)]

/-- The host's start is rejected with two players and accepted with three. -/
theorem handleStart_outcome_witness :
    (handleStart lobbyOfTwo (some hostAnn)).2 ≠ none ∧
    (handleStart lobbyOfThree (some hostAnn)).1.State = "playing" :=
  ⟨(handleStart_outcome lobbyOfTwo (some hostAnn)).2.2.2.1 (by decide),
    (handleStart_outcome lobbyOfThree (some hostAnn)).2.2.2.2 ⟨hostAnn, rfl, rfl⟩
      (by decide) (by decide)⟩

end wsmain

namespace game

theorem setPlayer_cons_eq (q v : Player) (rest : List Player) (h : q.ID = v.ID) :
    setPlayer (q :: rest) v = v :: rest := by
  show (if q.ID = v.ID then v :: rest else q :: setPlayer rest v) = v :: rest
  rw [if_pos h]

theorem setPlayer_cons_ne (q v : Player) (rest : List Player) (h : q.ID ≠ v.ID) :
    setPlayer (q :: rest) v = q :: setPlayer rest v := by
  show (if q.ID = v.ID then v :: rest else q :: setPlayer rest v) = q :: setPlayer rest v
  rw [if_neg h]

theorem getPlayer_setPlayer_self (ps : List Player) (v : Player) :
    getPlayer (setPlayer ps v) v.ID = some v := by
  unfold getPlayer
  induction ps with
  | nil => simp [setPlayer]
  | cons q rest ih =>
    by_cases h : q.ID = v.ID
    · rw [setPlayer_cons_eq q v rest h]
      simp
    · rw [setPlayer_cons_ne q v rest h, List.find?_cons]
      simp only [h, decide_False]
      exact ih

theorem getPlayer_setPlayer_other (ps : List Player) (v : Player) (id : String)
    (hne : id ≠ v.ID) : getPlayer (setPlayer ps v) id = getPlayer ps id := by
  unfold getPlayer
  induction ps with
  | nil =>
    have : ¬ (v.ID = id) := fun e => hne e.symm
    simp [setPlayer, this]
  | cons q rest ih =>
    have h1 : ¬ (v.ID = id) := fun e => hne e.symm
    by_cases h : q.ID = v.ID
    · have h2 : ¬ (q.ID = id) := fun e => hne (e.symm.trans h)
      rw [setPlayer_cons_eq q v rest h, List.find?_cons, List.find?_cons]
      simp only [h1, h2, decide_False]
    · rw [setPlayer_cons_ne q v rest h, List.find?_cons, List.find?_cons]
      by_cases h3 : q.ID = id
      · simp only [h3, decide_True]
      · simp only [h3, decide_False]
        exact ih

theorem AddPlayer_rejected (g : Game) (player : Player) (h : g.State ≠ GameState.Waiting) :
    AddPlayer g player = (g, some "game has already started") := by
  unfold AddPlayer
  rw [if_pos h]

theorem AddPlayer_accepted (g : Game) (player : Player) (h : g.State = GameState.Waiting) :
    AddPlayer g player = ({ g with Players := setPlayer g.Players player }, none) := by
  unfold AddPlayer
  rw [if_neg (fun c => c h)]

/-- C15. `AddPlayer` returns an error and leaves the game unchanged if and only if the
State is not `Waiting`; when the State is `Waiting` it returns nil and afterwards Players
maps the ID of the new player to that player, every other entry being unchanged. -/
theorem AddPlayer_outcome (g : Game) (player : Player) :
    ((AddPlayer g player).2 ≠ none ↔ g.State ≠ GameState.Waiting) ∧
    (g.State ≠ GameState.Waiting → (AddPlayer g player).1 = g) ∧
    (g.State = GameState.Waiting →
      (AddPlayer g player).2 = none ∧
      getPlayer (AddPlayer g player).1.Players player.ID = some player ∧
      (∀ id, id ≠ player.ID →
        getPlayer (AddPlayer g player).1.Players id = getPlayer g.Players id) ∧
      (AddPlayer g player).1.State = g.State) := by
  by_cases h : g.State = GameState.Waiting
  · rw [AddPlayer_accepted g player h]
    refine ⟨?_, fun c => absurd h c, fun _ => ⟨rfl, ?_, ?_, rfl⟩⟩
    · constructor
      · intro c; exact absurd rfl c
      · intro c; exact absurd h c
    · exact getPlayer_setPlayer_self g.Players player
    · intro id hne
      exact getPlayer_setPlayer_other g.Players player id hne
  · rw [AddPlayer_rejected g player h]
    refine ⟨?_, fun _ => rfl, fun c => absurd c h⟩
    constructor
    · intro _; exact h
    · intro _; simp

/-- A second player joins the lobby; a player is turned away from a round in progress. -/
theorem AddPlayer_outcome_witness :
    getPlayer (AddPlayer lobby (NewPlayer "B" "bob" false)).1.Players "B"
        = some (NewPlayer "B" "bob" false) ∧
    getPlayer (AddPlayer lobby (NewPlayer "B" "bob" false)).1.Players "A"
        = getPlayer lobby.Players "A" ∧
    (AddPlayer scenarioA (NewPlayer "D" "dan" false)).1 = scenarioA :=
  ⟨((AddPlayer_outcome lobby (NewPlayer "B" "bob" false)).2.2 (by decide)).2.1,
    ((AddPlayer_outcome lobby (NewPlayer "B" "bob" false)).2.2 (by decide)).2.2.1 "A"
      (by decide),
    (AddPlayer_outcome scenarioA (NewPlayer "D" "dan" false)).2.1 (by decide)⟩

theorem mem_SubmitNumber (g : Game) (playerID : String) (number : Nat) (q : Player)
    (hq : q ∈ (SubmitNumber g playerID number).1.Players) :
    q ∈ g.Players ∨ (q.Number = some number ∧ q.HasSubmitted = true) := by
  cases hg : getPlayer g.Players playerID with
  | none =>
    rw [SubmitNumber_missing g playerID number hg] at hq
    exact Or.inl hq
  | some pl =>
    by_cases hl : pl.Lives ≤ 0
    · rw [SubmitNumber_eliminated g playerID number pl hg hl] at hq
      exact Or.inl hq
    · rw [SubmitNumber_recorded g playerID number pl hg (by omega)] at hq
      simp only [List.mem_map] at hq
      obtain ⟨p, hp, hpq⟩ := hq
      by_cases hid : p.ID = playerID
      · rw [if_pos hid] at hpq
        right
        rw [← hpq]
        exact ⟨rfl, rfl⟩
      · rw [if_neg hid] at hpq
        left
        rw [← hpq]
        exact hp

/-- C14. `HasSubmitted` is true if and only if `Number` is present: a player made by
`NewPlayer` satisfies this, and if every player of a game satisfies it before `SubmitNumber`
or `EvaluateRound`, every player satisfies it afterwards. -/
theorem consistent_preserved (g : Game) (h : ∀ p ∈ g.Players, p.consistent) :
    (∀ id name isHost, (NewPlayer id name isHost).consistent) ∧
    (∀ playerID number, ∀ p ∈ (SubmitNumber g playerID number).1.Players, p.consistent) ∧
    (∀ p ∈ (EvaluateRound g).Players, p.consistent) := by
  refine ⟨?_, ?_, ?_⟩
  · intro id name isHost
    unfold Player.consistent NewPlayer
    simp
  · intro playerID number p hp
    rcases mem_SubmitNumber g playerID number p hp with hm | ⟨hn, hs⟩
    · exact h p hm
    · unfold Player.consistent
      rw [hn, hs]
      simp
  · intro p hp
    rw [EvaluateRound_Players] at hp
    obtain ⟨q, _, hq⟩ := List.mem_map.mp hp
    rw [← hq]
    unfold Player.consistent resetPlayer
    simp

/-- In the lobby the invariant holds, and it holds after a submission and after a round. -/
theorem consistent_preserved_witness :
    (∀ p ∈ lobby.Players, p.consistent) ∧
    (∀ p ∈ (SubmitNumber lobby "A" 3).1.Players, p.consistent) ∧
    (∀ p ∈ (EvaluateRound lobby).Players, p.consistent) :=
  have h0 : ∀ p ∈ lobby.Players, p.consistent := by decide
  ⟨h0, (consistent_preserved lobby h0).2.1 "A" 3, (consistent_preserved lobby h0).2.2⟩

theorem subs_reset (ps : List Player) : subs (ps.map resetPlayer) = [] := by
  induction ps with
  | nil => rfl
  | cons p rest ih =>
    unfold subs at ih ⊢
    simp only [List.map_cons, List.filterMap_cons]
    have : (if (resetPlayer p).Lives ≤ 0 then none
        else Option.map (fun n => (n, (resetPlayer p).ID)) (resetPlayer p).Number) = none := by
      unfold resetPlayer
      split <;> rfl
    rw [this]
    exact ih

theorem allDecs_reset (ps : List Player) : allDecs (ps.map resetPlayer) = [] := by
  have e : collectNumbers (ps.map resetPlayer) = [] := by
    unfold collectNumbers
    rw [collectNumbers_foldl, subs_reset]
    rfl
  unfold allDecs
  rw [e]
  rfl

theorem Game.ext3 (a b : Game) (h1 : a.ID = b.ID) (h2 : a.Players = b.Players)
    (h3 : a.State = b.State) : a = b := by
  cases a
  cases b
  simp_all

theorem EvaluateRound_State_eq (g : Game) :
    (EvaluateRound g).State
      = if activePlayers (EvaluateRound g).Players ≤ 1 then GameState.Finished else g.State :=
  rfl

/-- C17. `EvaluateRound` is idempotent: calling it twice in a row yields the same game
(every player's Lives, Number and HasSubmitted, and the State) as calling it once. -/
theorem EvaluateRound_idempotent (g : Game) :
    EvaluateRound (EvaluateRound g) = EvaluateRound g := by
  have hP : (EvaluateRound (EvaluateRound g)).Players = (EvaluateRound g).Players := by
    rw [EvaluateRound_Players (EvaluateRound g)]
    rw [EvaluateRound_Players g, allDecs_reset, applyDecs_nil, List.map_map]
    apply List.map_congr_left
    intro p _
    rfl
  apply Game.ext3
  · rfl
  · exact hP
  · rw [EvaluateRound_State_eq (EvaluateRound g), hP, EvaluateRound_State_eq g]
    split <;> rfl

end game

namespace game

theorem getPlayer_mem (ps : List Player) (id : String) (p : Player)
    (h : getPlayer ps id = some p) : p ∈ ps ∧ p.ID = id := by
  unfold getPlayer at h
  refine ⟨List.mem_of_find?_eq_some h, ?_⟩
  have := List.find?_some h
  simpa using this

theorem livesOf_SubmitNumber (g : Game) (playerID : String) (number : Nat) (id : String) :
    livesOf (SubmitNumber g playerID number).1 id = livesOf g id := by
  cases hg : getPlayer g.Players playerID with
  | none => rw [SubmitNumber_missing g playerID number hg]
  | some pl =>
    by_cases hl : pl.Lives ≤ 0
    · rw [SubmitNumber_eliminated g playerID number pl hg hl]
    · rw [SubmitNumber_recorded g playerID number pl hg (by omega)]
      unfold livesOf
      by_cases hid : id = playerID
      · subst hid
        show Option.map Player.Lives (getPlayer (g.Players.map (fun p =>
            if p.ID = id then { p with Number := some number, HasSubmitted := true }
            else p)) id) = _
        rw [getPlayer_update g.Players id
          (fun q => { q with Number := some number, HasSubmitted := true }) (fun _ => rfl), hg]
        rfl
      · show Option.map Player.Lives (getPlayer (g.Players.map (fun p =>
            if p.ID = playerID then { p with Number := some number, HasSubmitted := true }
            else p)) id) = _
        rw [getPlayer_update_other g.Players playerID id
          (fun q => { q with Number := some number, HasSubmitted := true }) (fun _ => rfl) hid]

/-- C13 fails: `AddPlayer` with the ID of a player already in the game replaces that player,
and the lives recorded under the ID go up from 6 to 7. -/
theorem AddPlayer_restores_lives :
    afterOneRound.State = GameState.Waiting ∧
    livesOf afterOneRound "A" = some 6 ∧
    (AddPlayer afterOneRound (NewPlayer "A" "ann" true)).2 = none ∧
    livesOf (AddPlayer afterOneRound (NewPlayer "A" "ann" true)).1 "A" = some 7 := by
  decide

/-- C13, amended. For every player id present before the operation, Lives afterwards is
less than or equal to Lives before after `SubmitNumber` (equal) and `EvaluateRound`, and
after `AddPlayer` for every id other than the ID of the player passed to it (equal);
`AddPlayer` in state `Waiting` stores the player passed to it under its ID, with the Lives it
comes with, also when that ID was present.  `AllPlayersSubmitted` only reads the game. -/
theorem lives_never_increase (g : Game) (hwf : g.WF) (id : String) (l : Int)
    (h : livesOf g id = some l) :
    (∀ player, id ≠ player.ID → livesOf (AddPlayer g player).1 id = some l) ∧
    (∀ player, g.State = GameState.Waiting →
      livesOf (AddPlayer g player).1 player.ID = some player.Lives) ∧
    (∀ playerID number, livesOf (SubmitNumber g playerID number).1 id = some l) ∧
    (∃ l', livesOf (EvaluateRound g) id = some l' ∧ l' ≤ l) := by
  refine ⟨?_, ?_, ?_, ?_⟩
  · intro player hne
    by_cases hs : g.State = GameState.Waiting
    · rw [AddPlayer_accepted g player hs]
      unfold livesOf at h ⊢
      show Option.map Player.Lives (getPlayer (setPlayer g.Players player) id) = some l
      rw [getPlayer_setPlayer_other g.Players player id hne]
      exact h
    · rw [AddPlayer_rejected g player hs]
      exact h
  · intro player hs
    rw [AddPlayer_accepted g player hs]
    unfold livesOf
    show Option.map Player.Lives (getPlayer (setPlayer g.Players player) player.ID) = _
    rw [getPlayer_setPlayer_self]
    rfl
  · intro playerID number
    rw [livesOf_SubmitNumber]
    exact h
  · unfold livesOf at h
    cases hg : getPlayer g.Players id with
    | none => rw [hg] at h; exact absurd h (by simp)
    | some p =>
      rw [hg] at h
      have hl : p.Lives = l := Option.some.inj h
      obtain ⟨hp, hid⟩ := getPlayer_mem g.Players id p hg
      refine ⟨p.Lives - ((allDecs g.Players).count p.ID : Int), ?_, ?_⟩
      · rw [← hid]
        exact livesOf_EvaluateRound g hwf p hp
      · have : (0 : Int) ≤ ((allDecs g.Players).count p.ID : Int) := Int.ofNat_nonneg _
        omega

/-- In scenario A the first player has 7 lives before and 5 after `EvaluateRound`, and keeps
7 when another player is added or a number is submitted. -/
theorem lives_never_increase_witness :
    scenarioA.WF ∧ livesOf scenarioA "A" = some 7 ∧
    livesOf (SubmitNumber scenarioA "B" 2).1 "A" = some 7 ∧
    (∃ l', livesOf (EvaluateRound scenarioA) "A" = some l' ∧ l' ≤ 7) :=
  ⟨by decide, by decide,
    (lives_never_increase scenarioA (by decide) "A" 7 (by decide)).2.2.1 "B" 2,
    (lives_never_increase scenarioA (by decide) "A" 7 (by decide)).2.2.2⟩

end game

namespace game

theorem EvaluateRoundIn_Players (visit : List Player → List Player)
    (order : List (Nat × List String) → List (Nat × List String)) (g : Game) :
    (EvaluateRoundIn visit order g).Players
      = (applyDecs (decsOf (order (collectNumbers (visit g.Players)))) g.Players).map
          resetPlayer := by
  unfold EvaluateRoundIn decsOf
  simp only []
  have h := foldl_handleGroup (order (collectNumbers (visit g.Players))) [] g.Players Track.init
  rw [applyDecs_nil] at h
  rw [h]
  simp only [decOpt_applyDecs, List.nil_append]

theorem EvaluateRoundIn_State_eq (visit : List Player → List Player)
    (order : List (Nat × List String) → List (Nat × List String)) (g : Game) :
    (EvaluateRoundIn visit order g).State
      = if activePlayers (EvaluateRoundIn visit order g).Players ≤ 1 then GameState.Finished
        else g.State :=
  rfl

theorem decsOf_spec (l : List (Nat × String)) (groups : List (Nat × List String))
    (hperm : groups.Perm (l.foldl (fun acc x => appendID acc x.1 x.2) [])) (pid : String) :
    DecsSpec l (decsOf groups) pid := by
  obtain ⟨ks, hks, hmem, heq⟩ := groups_normal l
  rw [heq] at hperm
  have hfst : ∀ xs : List Nat, (xs.map (fun k => (k, idsAt l k))).map Prod.fst = xs := by
    intro xs
    induction xs with
    | nil => rfl
    | cons a r ih => simp only [List.map_cons, ih]
  have hkeys : (groups.map Prod.fst).Perm ks := by
    have := hperm.map Prod.fst
    rw [hfst] at this
    exact this
  have hform : (groups.map Prod.fst).map (fun k => (k, idsAt l k)) = groups := by
    rw [List.map_map]
    have hpt : ∀ grp ∈ groups, ((fun k => (k, idsAt l k)) ∘ Prod.fst) grp = grp := by
      intro grp hg
      have hg2 : grp ∈ ks.map (fun k => (k, idsAt l k)) := hperm.mem_iff.mp hg
      obtain ⟨k, _, hk⟩ := List.mem_map.mp hg2
      rw [← hk]
      rfl
    rw [List.map_congr_left hpt]
    exact List.map_id' groups
  refine ⟨groups.map Prod.fst, groups.foldl trackGroup Track.init,
    hkeys.nodup_iff.mpr hks, ?_, ?_, ?_⟩
  · intro k
    rw [hkeys.mem_iff]
    exact hmem k
  · have := trackInv_foldl (idsAt l) (groups.map Prod.fst)
    rw [hform] at this
    exact this
  · rw [hform]
    unfold decsOf
    simp only [List.count_append, count_toList]

theorem spec_absent (l : List (Nat × String)) (D : List String) (id : String)
    (h : DecsSpec l D id) (habs : id ∉ l.map Prod.snd) : D.count id = 0 := by
  obtain ⟨ks, t, hks, hmem, hinv, hc⟩ := h
  have hno : ∀ k, (k, id) ∉ l := fun k hk => habs (List.mem_map_of_mem Prod.snd hk)
  have hmin : ¬ t.minPlayer = some id := fun hm => by
    obtain ⟨k, hk, _⟩ := tracked_filed _ ks t hinv id (Or.inl hm)
    exact hno k hk
  have hmax : ¬ t.maxPlayer = some id := fun hm => by
    obtain ⟨k, hk, _⟩ := tracked_filed _ ks t hinv id (Or.inr hm)
    exact hno k hk
  rw [hc, count_dup_absent _ ks id habs, if_neg hmin, if_neg hmax]

theorem spec_shared (l : List (Nat × String)) (hnd : (l.map Prod.snd).Nodup)
    (D : List String) (id : String) (h : DecsSpec l D id) (n : Nat) (hf : (n, id) ∈ l)
    (hlen : 1 < (idsAt l n).length) : D.count id = 1 := by
  obtain ⟨ks, t, hks, hmem, hinv, hc⟩ := h
  have hnot : ∀ k, (k, id) ∈ l → (idsAt l k).length ≠ 1 := by
    intro k hk
    have e : k = n := fst_unique _ hnd k n id hk hf
    rw [e]; omega
  have hmin : ¬ t.minPlayer = some id := fun hm => by
    obtain ⟨k, hk, hk1⟩ := tracked_filed _ ks t hinv id (Or.inl hm)
    exact hnot k hk hk1
  have hmax : ¬ t.maxPlayer = some id := fun hm => by
    obtain ⟨k, hk, hk1⟩ := tracked_filed _ ks t hinv id (Or.inr hm)
    exact hnot k hk hk1
  rw [hc, count_dup_present _ hnd ks hks hmem n id hf, if_pos hlen, if_neg hmin, if_neg hmax]

theorem spec_unique (l : List (Nat × String)) (hnd : (l.map Prod.snd).Nodup)
    (D : List String) (id : String) (h : DecsSpec l D id) (n : Nat) (hf : (n, id) ∈ l)
    (hu : (idsAt l n).length = 1) :
    ∃ a b : Nat, D.count id = a + b ∧
      ((∀ k, (idsAt l k).length = 1 → n ≤ k) → a = 1) ∧
      (¬ (∀ k, (idsAt l k).length = 1 → n ≤ k) → a = 0) ∧
      ((∀ k, (idsAt l k).length = 1 → k ≤ n) → b = 1) ∧
      (¬ (∀ k, (idsAt l k).length = 1 → k ≤ n) → b = 0) := by
  obtain ⟨ks, t, hks, hmem, hinv, hc⟩ := h
  obtain ⟨hmin, hmax⟩ := tracked_iff _ hnd ks hmem t hinv n id hf hu
  have hd : ¬ (1 < (idsAt l n).length) := by omega
  rw [count_dup_present _ hnd ks hks hmem n id hf, if_neg hd] at hc
  refine ⟨if t.minPlayer = some id then 1 else 0, if t.maxPlayer = some id then 1 else 0,
    by rw [hc]; omega, ?_, ?_, ?_, ?_⟩
  · intro h; rw [if_pos (hmin.mpr h)]
  · intro h; rw [if_neg (fun hm => h (hmin.mp hm))]
  · intro h; rw [if_pos (hmax.mpr h)]
  · intro h; rw [if_neg (fun hm => h (hmax.mp hm))]

theorem idsAt_length_perm (l1 l2 : List (Nat × String)) (hp : l1.Perm l2) (k : Nat) :
    (idsAt l1 k).length = (idsAt l2 k).length := by
  unfold idsAt
  exact ((hp.filter _).map _).length_eq

/-- Two lists of decrements that follow the groups of the same submissions, filed and
visited in whatever orders, decrement every player the same number of times. -/
theorem count_eq_of_perm (l1 l2 : List (Nat × String)) (hp : l1.Perm l2)
    (hnd1 : (l1.map Prod.snd).Nodup) (D1 D2 : List String) (id : String)
    (h1 : DecsSpec l1 D1 id) (h2 : DecsSpec l2 D2 id) : D1.count id = D2.count id := by
  have hnd2 : (l2.map Prod.snd).Nodup := (hp.map Prod.snd).nodup_iff.mp hnd1
  have hlen := idsAt_length_perm l1 l2 hp
  by_cases hm : id ∈ l1.map Prod.snd
  · obtain ⟨⟨n, i⟩, hx, hi⟩ := List.mem_map.mp hm
    simp only at hi
    subst hi
    have hx2 : (n, i) ∈ l2 := hp.mem_iff.mp hx
    have hpos : 1 ≤ (idsAt l1 n).length := by
      have : i ∈ idsAt l1 n := (mem_idsAt l1 n i).mpr hx
      exact List.length_pos_of_mem this
    by_cases hgt : 1 < (idsAt l1 n).length
    · rw [spec_shared l1 hnd1 D1 i h1 n hx hgt,
        spec_shared l2 hnd2 D2 i h2 n hx2 (by rw [← hlen]; exact hgt)]
    · have hu1 : (idsAt l1 n).length = 1 := by omega
      have hu2 : (idsAt l2 n).length = 1 := by rw [← hlen]; exact hu1
      obtain ⟨a1, b1, e1, p1, q1, r1, s1⟩ := spec_unique l1 hnd1 D1 i h1 n hx hu1
      obtain ⟨a2, b2, e2, p2, q2, r2, s2⟩ := spec_unique l2 hnd2 D2 i h2 n hx2 hu2
      simp only [← hlen] at p2 q2 r2 s2
      have ea : a1 = a2 := by
        by_cases c : ∀ k, (idsAt l1 k).length = 1 → n ≤ k
        · rw [p1 c, p2 c]
        · rw [q1 c, q2 c]
      have eb : b1 = b2 := by
        by_cases c : ∀ k, (idsAt l1 k).length = 1 → k ≤ n
        · rw [r1 c, r2 c]
        · rw [s1 c, s2 c]
      rw [e1, e2, ea, eb]
  · have hm2 : id ∉ l2.map Prod.snd := fun c => hm ((hp.map Prod.snd).mem_iff.mpr c)
    rw [spec_absent l1 D1 id h1 hm, spec_absent l2 D2 id h2 hm2]

theorem decs_spec_of_orders (ps : List Player) (visit : List Player → List Player)
    (order : List (Nat × List String) → List (Nat × List String))
    (ho : ∀ m, (order m).Perm m) (id : String) :
    DecsSpec (subs (visit ps)) (decsOf (order (collectNumbers (visit ps)))) id := by
  apply decsOf_spec
  have e : collectNumbers (visit ps)
      = (subs (visit ps)).foldl (fun acc x => appendID acc x.1 x.2) [] := by
    unfold collectNumbers
    rw [collectNumbers_foldl]
  rw [← e]
  exact ho _

/-- Whatever the iteration orders, `EvaluateRoundIn` returns the same game. -/
theorem EvaluateRoundIn_eq (g : Game) (hwf : g.WF)
    (visit visit' : List Player → List Player)
    (order order' : List (Nat × List String) → List (Nat × List String))
    (hv : ∀ l, (visit l).Perm l) (hv' : ∀ l, (visit' l).Perm l)
    (ho : ∀ m, (order m).Perm m) (ho' : ∀ m, (order' m).Perm m) :
    EvaluateRoundIn visit order g = EvaluateRoundIn visit' order' g := by
  have hl : (subs (visit g.Players)).Perm (subs (visit' g.Players)) := by
    unfold subs
    exact ((hv g.Players).trans (hv' g.Players).symm).filterMap _
  have hnd : ((subs (visit g.Players)).map Prod.snd).Nodup := by
    apply subs_nodup
    exact ((hv g.Players).map Player.ID).nodup_iff.mpr hwf
  have hcount : ∀ id, (decsOf (order (collectNumbers (visit g.Players)))).count id
      = (decsOf (order' (collectNumbers (visit' g.Players)))).count id := by
    intro id
    exact count_eq_of_perm _ _ hl hnd _ _ id
      (decs_spec_of_orders g.Players visit order ho id)
      (decs_spec_of_orders g.Players visit' order' ho' id)
  have hP : (EvaluateRoundIn visit order g).Players
      = (EvaluateRoundIn visit' order' g).Players := by
    rw [EvaluateRoundIn_Players, EvaluateRoundIn_Players]
    unfold applyDecs
    simp only [hcount]
  apply Game.ext3
  · rfl
  · exact hP
  · rw [EvaluateRoundIn_State_eq, EvaluateRoundIn_State_eq, hP]

/-- C16. The outcome of `EvaluateRound` does not depend on the order in which the Players
map and the per-number groups are iterated: any two iteration orders give the same Lives for
every player and the same State; `EvaluateRound` is the run with the orders as stored. -/
theorem EvaluateRound_order_independent (g : Game) (hwf : g.WF)
    (visit visit' : List Player → List Player)
    (order order' : List (Nat × List String) → List (Nat × List String))
    (hv : ∀ l, (visit l).Perm l) (hv' : ∀ l, (visit' l).Perm l)
    (ho : ∀ m, (order m).Perm m) (ho' : ∀ m, (order' m).Perm m) :
    (∀ id, livesOf (EvaluateRoundIn visit order g) id
        = livesOf (EvaluateRoundIn visit' order' g) id) ∧
    (EvaluateRoundIn visit order g).State = (EvaluateRoundIn visit' order' g).State ∧
    (∀ id, livesOf (EvaluateRoundIn visit order g) id = livesOf (EvaluateRound g) id) ∧
    (EvaluateRoundIn visit order g).State = (EvaluateRound g).State := by
  have e1 := EvaluateRoundIn_eq g hwf visit visit' order order' hv hv' ho ho'
  have e2 : EvaluateRoundIn visit order g = EvaluateRound g :=
    EvaluateRoundIn_eq g hwf visit (fun l => l) order (fun m => m) hv
      (fun l => List.Perm.refl l) ho (fun m => List.Perm.refl m)
  refine ⟨fun id => by rw [e1], by rw [e1], fun id => by rw [e2], by rw [e2]⟩

/-- Scenario B run with both maps visited backwards: the lives are 6, 6, 6, 6 as with the
stored orders. -/
theorem EvaluateRound_order_independent_witness :
    scenarioB.WF ∧
    (∀ id, livesOf (EvaluateRoundIn List.reverse List.reverse scenarioB) id
        = livesOf (EvaluateRound scenarioB) id) ∧
    (EvaluateRoundIn List.reverse List.reverse scenarioB).Players.map Player.Lives
        = [6, 6, 6, 6] :=
  ⟨by decide,
    (EvaluateRound_order_independent scenarioB (by decide) List.reverse (fun l => l)
      List.reverse (fun m => m) (fun l => List.reverse_perm l) (fun l => List.Perm.refl l)
      (fun m => List.reverse_perm m) (fun m => List.Perm.refl m)).2.2.1,
    by decide⟩

end game

namespace wsmain

theorem incCount_fresh (l : List (Int × Int)) (n : Int) (h : n ∉ l.map Prod.fst) :
    incCount l n = l ++ [(n, 1)] := by
  induction l with
  | nil => rfl
  | cons e rest ih =>
    obtain ⟨k, c⟩ := e
    have hk : ¬ (k = n) := fun e => h (by simp [e])
    have hr : n ∉ rest.map Prod.fst := fun e => h (by simp [e])
    show (if k = n then (k, c + 1) :: rest else (k, c) :: incCount rest n) = _
    rw [if_neg hk, ih hr]
    rfl

theorem setNumber_fresh (l : List (String × Int)) (id : String) (n : Int)
    (h : id ∉ l.map Prod.fst) : setNumber l id n = l ++ [(id, n)] := by
  induction l with
  | nil => rfl
  | cons e rest ih =>
    obtain ⟨k, v⟩ := e
    have hk : ¬ (k = id) := fun e => h (by simp [e])
    have hr : id ∉ rest.map Prod.fst := fun e => h (by simp [e])
    show (if k = id then (k, n) :: rest else (k, v) :: setNumber rest id n) = _
    rw [if_neg hk, ih hr]
    rfl

theorem actives_cons_pos (p : Player) (rest : List Player)
    (h : p.Lives > 0 ∧ p.HasPlayed = true) : actives (p :: rest) = p :: actives rest := by
  unfold actives
  rw [List.filter_cons]
  simp [h.1, h.2]

theorem actives_cons_neg (p : Player) (rest : List Player)
    (h : ¬ (p.Lives > 0 ∧ p.HasPlayed = true)) : actives (p :: rest) = actives rest := by
  unfold actives
  rw [List.filter_cons]
  have : (decide (p.Lives > 0) && p.HasPlayed) = false := by
    by_cases h1 : p.Lives > 0
    · have h2 : p.HasPlayed = false := by
        cases hp : p.HasPlayed with
        | false => rfl
        | true => exact absurd ⟨h1, hp⟩ h
      simp [h2]
    · simp [h1]
  rw [this]
  rfl

/-- The three locals after the first loop of `resolveRound`, when no two collected players
share an ID or a number. -/
theorem collect_fold (ps : List Player) (c : Collected)
    (hid : (c.playerNumbers.map Prod.fst ++ (actives ps).map Player.ID).Nodup)
    (hnum : (c.counts.map Prod.fst ++ (actives ps).map Player.Number).Nodup) :
    ps.foldl collectStep c
      = { numbers := c.numbers ++ (actives ps).map Player.Number,
          counts := c.counts ++ (actives ps).map (fun p => (p.Number, 1)),
          playerNumbers := c.playerNumbers ++ (actives ps).map (fun p => (p.ID, p.Number)) } := by
  induction ps generalizing c with
  | nil => simp [actives]
  | cons p rest ih =>
    rw [List.foldl_cons]
    by_cases ha : p.Lives > 0 ∧ p.HasPlayed = true
    · rw [actives_cons_pos p rest ha] at hid hnum ⊢
      have h1 : p.ID ∉ c.playerNumbers.map Prod.fst := by
        intro hc
        have := (List.nodup_append.mp hid).2.2
        exact this hc (by simp)
      have h2 : p.Number ∉ c.counts.map Prod.fst := by
        intro hc
        have := (List.nodup_append.mp hnum).2.2
        exact this hc (by simp)
      have e : collectStep c p
          = { numbers := c.numbers ++ [p.Number],
              counts := c.counts ++ [(p.Number, 1)],
              playerNumbers := c.playerNumbers ++ [(p.ID, p.Number)] } := by
        unfold collectStep
        rw [if_pos ha, incCount_fresh _ _ h2, setNumber_fresh _ _ _ h1]
      rw [e, ih]
      · simp
      · simpa using hid
      · simpa using hnum
    · rw [actives_cons_neg p rest ha] at hid hnum ⊢
      have e : collectStep c p = c := by
        unfold collectStep
        rw [if_neg ha]
      rw [e, ih c hid hnum]

theorem minMax_fold (xs : List Int) (a b : Int) :
    let r := xs.foldl (fun (mm : Int × Int) num =>
      (if num < mm.1 then num else mm.1, if num > mm.2 then num else mm.2)) (a, b)
    (r.1 = a ∨ r.1 ∈ xs) ∧ r.1 ≤ a ∧ (∀ x ∈ xs, r.1 ≤ x) ∧
    (r.2 = b ∨ r.2 ∈ xs) ∧ b ≤ r.2 ∧ (∀ x ∈ xs, x ≤ r.2) := by
  induction xs generalizing a b with
  | nil => simp
  | cons x rest ih =>
    simp only [List.foldl_cons]
    obtain ⟨i1, i2, i3, i4, i5, i6⟩ :=
      ih (if x < a then x else a) (if x > b then x else b)
    refine ⟨?_, ?_, ?_, ?_, ?_, ?_⟩
    · rcases i1 with e | e
      · rw [e]
        by_cases hx : x < a
        · rw [if_pos hx]; right; simp
        · rw [if_neg hx]; left; rfl
      · right; exact List.mem_cons_of_mem _ e
    · have : (if x < a then x else a) ≤ a := by split <;> omega
      omega
    · intro y hy
      rcases List.mem_cons.mp hy with e | e
      · have : (if x < a then x else a) ≤ x := by split <;> omega
        rw [e]; omega
      · exact i3 y e
    · rcases i4 with e | e
      · rw [e]
        by_cases hx : x > b
        · rw [if_pos hx]; right; simp
        · rw [if_neg hx]; left; rfl
      · right; exact List.mem_cons_of_mem _ e
    · have : b ≤ (if x > b then x else b) := by split <;> omega
      omega
    · intro y hy
      rcases List.mem_cons.mp hy with e | e
      · have : x ≤ (if x > b then x else b) := by split <;> omega
        rw [e]; omega
      · exact i6 y e

/-- `min` and `max` of `resolveRound`: members of `numbers` that bound every member. -/
theorem minMax_spec (first : Int) (rest : List Int) :
    (minMax first (first :: rest)).1 ∈ first :: rest ∧
    (∀ x ∈ first :: rest, (minMax first (first :: rest)).1 ≤ x) ∧
    (minMax first (first :: rest)).2 ∈ first :: rest ∧
    (∀ x ∈ first :: rest, x ≤ (minMax first (first :: rest)).2) := by
  obtain ⟨i1, _, i3, i4, _, i6⟩ := minMax_fold (first :: rest) first first
  refine ⟨?_, i3, ?_, i6⟩
  · rcases i1 with e | e
    · unfold minMax; rw [e]; simp
    · exact e
  · rcases i4 with e | e
    · unfold minMax; rw [e]; simp
    · exact e

theorem mismo_fold_none (pn : List (String × Int)) (entries : List (Int × Int))
    (ps : List Player) (h : ∀ e ∈ entries, e.2 ≠ 2) :
    entries.foldl (mismoStep pn) ps = ps := by
  induction entries generalizing ps with
  | nil => rfl
  | cons e rest ih =>
    rw [List.foldl_cons]
    have : mismoStep pn ps e = ps := by
      unfold mismoStep
      rw [if_neg (h e (by simp))]
    rw [this]
    exact ih ps (fun e2 h2 => h e2 (by simp [h2]))

end wsmain

namespace wsmain

theorem getPlayer_map_keepID (f : Player → Player) (hf : ∀ q, (f q).ID = q.ID) (ps : List Player)
    (id : String) : getPlayer (ps.map f) id = (getPlayer ps id).map f := by
  unfold getPlayer
  induction ps with
  | nil => rfl
  | cons q rest ih =>
    rw [List.map_cons, List.find?_cons, List.find?_cons, hf]
    by_cases h : q.ID = id
    · simp only [h, decide_True, Option.map_some']
    · simp only [h, decide_False]
      exact ih

theorem filter_unique (L : List Player) (hnd : (L.map Player.Number).Nodup) (x : Player)
    (hx : x ∈ L) : L.filter (fun p => decide (p.Number = x.Number)) = [x] := by
  induction L with
  | nil => simp at hx
  | cons a rest ih =>
    have ha : a.Number ∉ rest.map Player.Number := (List.nodup_cons.mp hnd).1
    have hnd2 : (rest.map Player.Number).Nodup := (List.nodup_cons.mp hnd).2
    rw [List.filter_cons]
    rcases List.mem_cons.mp hx with e | e
    · subst e
      have hnil : rest.filter (fun p => decide (p.Number = x.Number)) = [] := by
        rw [List.filter_eq_nil_iff]
        intro r hr hc
        simp only [decide_eq_true_eq] at hc
        exact ha (hc ▸ List.mem_map_of_mem Player.Number hr)
      simp [hnil]
    · have hne : ¬ (a.Number = x.Number) :=
        fun hc => ha (hc ▸ List.mem_map_of_mem Player.Number e)
      simp only [hne, decide_False]
      exact ih hnd2 e

theorem holders_of_number (A : List Player) (hnd : (A.map Player.Number).Nodup) (x : Player)
    (hx : x ∈ A) :
    ((A.map (fun p => (p.ID, p.Number))).filter (fun pn => decide (pn.2 = x.Number))).map
      Prod.fst = [x.ID] := by
  rw [List.filter_map, List.map_map]
  have e : ((fun (pn : String × Int) => decide (pn.2 = x.Number)) ∘ fun (p : Player) =>
      (p.ID, p.Number)) = fun p => decide (p.Number = x.Number) := by
    funext p; rfl
  rw [e, filter_unique A hnd x hx]
  rfl

/-- `resolveRound` once the three locals of its first loop are known and `numbers` is not
empty. -/
theorem resolveRound_Players_of (g : Game) (c : Collected) (first : Int) (rest : List Int)
    (hc : g.Players.foldl collectStep { numbers := [], counts := [], playerNumbers := [] } = c)
    (hn : c.numbers = first :: rest) :
    (resolveRound g).Players
      = c.counts.foldl (mismoStep c.playerNumbers)
          (((c.playerNumbers.filter
              (fun pn => decide (pn.2 = (minMax first c.numbers).2))).map Prod.fst).foldl
            loseLife
            (((c.playerNumbers.filter
              (fun pn => decide (pn.2 = (minMax first c.numbers).1))).map Prod.fst).foldl
              loseLife g.Players)) := by
  unfold resolveRound
  simp only [hc]
  rw [hn]

end wsmain

namespace wsmain

theorem collect_all (ps : List Player) (hnd : (ps.map Player.ID).Nodup)
    (hdist : ((actives ps).map Player.Number).Nodup) :
    ps.foldl collectStep { numbers := [], counts := [], playerNumbers := [] }
      = { numbers := (actives ps).map Player.Number,
          counts := (actives ps).map (fun p => (p.Number, 1)),
          playerNumbers := (actives ps).map (fun p => (p.ID, p.Number)) } := by
  have hidA : ((actives ps).map Player.ID).Nodup := by
    unfold actives
    exact List.Nodup.sublist (List.Sublist.map _ (List.filter_sublist ps)) hnd
  have h := collect_fold ps { numbers := [], counts := [], playerNumbers := [] }
    (by simpa using hidA) (by simpa using hdist)
  simpa using h

/-- `resolveRound` when no two collected players share a number and there are at least two
of them: the holder of the least number and the holder of the greatest each go through the
`Lives--` of the two loops, and the mismo loop finds nothing. -/
theorem resolveRound_no_ties (g : Game) (hnd : (g.Players.map Player.ID).Nodup)
    (hdist : ((actives g.Players).map Player.Number).Nodup)
    (htwo : 2 ≤ (actives g.Players).length) :
    ∃ pmin ∈ actives g.Players, ∃ pmax ∈ actives g.Players,
      pmin.Number < pmax.Number ∧
      (∀ r ∈ actives g.Players, pmin.Number ≤ r.Number ∧ r.Number ≤ pmax.Number) ∧
      (resolveRound g).Players = loseLife (loseLife g.Players pmin.ID) pmax.ID := by
  have hc := collect_all g.Players hnd hdist
  rcases hA : actives g.Players with _ | ⟨a, _ | ⟨b, t⟩⟩
  · rw [hA] at htwo; simp at htwo
  · rw [hA] at htwo; simp at htwo
  · have hnum : (actives g.Players).map Player.Number
        = a.Number :: (b :: t).map Player.Number := by rw [hA]; rfl
    obtain ⟨m1, m2, m3, m4⟩ := minMax_spec a.Number ((b :: t).map Player.Number)
    rw [← hnum] at m1 m2 m3 m4
    obtain ⟨pmin, hpmin, emin⟩ := List.mem_map.mp m1
    obtain ⟨pmax, hpmax, emax⟩ := List.mem_map.mp m3
    have hP := resolveRound_Players_of g _ a.Number ((b :: t).map Player.Number) hc hnum
    simp only [] at hP
    rw [← emin, ← emax] at hP
    rw [holders_of_number _ hdist pmin hpmin, holders_of_number _ hdist pmax hpmax] at hP
    rw [mismo_fold_none] at hP
    · have hbound : ∀ r ∈ actives g.Players,
          pmin.Number ≤ r.Number ∧ r.Number ≤ pmax.Number := by
        intro r hr
        have hrn : r.Number ∈ (actives g.Players).map Player.Number :=
          List.mem_map_of_mem Player.Number hr
        rw [emin, emax]
        exact ⟨m2 _ hrn, m4 _ hrn⟩
      have hab : a.Number ≠ b.Number := by
        rw [hA] at hdist
        simp only [List.map_cons, List.nodup_cons, List.mem_cons, not_or] at hdist
        exact hdist.1.1
      have ha : a ∈ actives g.Players := by rw [hA]; simp
      have hb : b ∈ actives g.Players := by rw [hA]; simp
      have hlt : pmin.Number < pmax.Number := by
        have h1 := hbound a ha
        have h2 := hbound b hb
        omega
      rw [← hA]
      exact ⟨pmin, hpmin, pmax, hpmax, hlt, hbound, hP⟩
    · intro e he
      obtain ⟨p, _, hp⟩ := List.mem_map.mp he
      rw [← hp]
      show (1 : Int) ≠ 2
      decide

end wsmain

namespace wsmain

theorem mem_actives (ps : List Player) (q : Player) :
    q ∈ actives ps ↔ q ∈ ps ∧ 0 < q.Lives ∧ q.HasPlayed = true := by
  unfold actives
  simp only [List.mem_filter, Bool.and_eq_true, decide_eq_true_eq, gt_iff_lt]

theorem getPlayer_of_mem (ps : List Player) (hnd : (ps.map Player.ID).Nodup) (q : Player)
    (hq : q ∈ ps) : getPlayer ps q.ID = some q := by
  unfold getPlayer
  induction ps with
  | nil => simp at hq
  | cons a rest ih =>
    have ha : a.ID ∉ rest.map Player.ID := (List.nodup_cons.mp hnd).1
    have hnd2 : (rest.map Player.ID).Nodup := (List.nodup_cons.mp hnd).2
    rw [List.find?_cons]
    rcases List.mem_cons.mp hq with e | e
    · subst e
      simp
    · have hne : ¬ (a.ID = q.ID) := fun hc => ha (hc ▸ List.mem_map_of_mem Player.ID e)
      simp only [hne, decide_False]
      exact ih hnd2 e

theorem loseLife_eq_map (ps : List Player) (pid : String) :
    loseLife ps pid = ps.map (loseStep pid) := rfl

theorem loseStep_ID (pid : String) (p : Player) : (loseStep pid p).ID = p.ID := by
  unfold loseStep
  split <;> rfl

theorem loseStep_miss (pid : String) (p : Player) (h : ¬ (p.ID = pid ∧ p.Lives > 0)) :
    loseStep pid p = p := by
  unfold loseStep
  rw [if_neg h]

theorem loseStep_hit (pid : String) (p : Player) (h : p.ID = pid ∧ p.Lives > 0) :
    (loseStep pid p).Lives = p.Lives - 1 := by
  unfold loseStep
  rw [if_pos h]
  show (if p.Lives - 1 ≤ 0 then (0 : Int) else p.Lives - 1) = p.Lives - 1
  have := h.2
  split <;> omega

theorem loseLife_twice_lives (a b : String) (hab : a ≠ b) (q : Player) :
    (loseStep b (loseStep a q)).Lives
      = if (q.ID = a ∨ q.ID = b) ∧ 0 < q.Lives then q.Lives - 1 else q.Lives := by
  by_cases ha : q.ID = a ∧ q.Lives > 0
  · have hb : ¬ ((loseStep a q).ID = b ∧ (loseStep a q).Lives > 0) := by
      rw [loseStep_ID]
      intro c
      exact hab (ha.1.symm.trans c.1)
    rw [loseStep_miss b _ hb, loseStep_hit a q ha, if_pos ⟨Or.inl ha.1, ha.2⟩]
  · rw [loseStep_miss a q ha]
    by_cases hb : q.ID = b ∧ q.Lives > 0
    · rw [loseStep_hit b q hb, if_pos ⟨Or.inr hb.1, hb.2⟩]
    · rw [loseStep_miss b q hb]
      have : ¬ ((q.ID = a ∨ q.ID = b) ∧ 0 < q.Lives) := by
        rintro ⟨h1 | h1, h2⟩
        · exact ha ⟨h1, h2⟩
        · exact hb ⟨h1, h2⟩
      rw [if_neg this]

/-- The lives after `resolveRound` in a round without ties: one fewer for the collected
player with the least number and for the one with the greatest, unchanged for the others. -/
theorem resolveRound_lives (g : Game) (hnd : (g.Players.map Player.ID).Nodup)
    (hdist : ((actives g.Players).map Player.Number).Nodup)
    (htwo : 2 ≤ (actives g.Players).length) (q : Player) (hq : q ∈ g.Players) :
    livesOf (resolveRound g) q.ID
      = some (if q ∈ actives g.Players ∧
                ((∀ r ∈ actives g.Players, q.Number ≤ r.Number)
                  ∨ (∀ r ∈ actives g.Players, r.Number ≤ q.Number))
              then q.Lives - 1 else q.Lives) := by
  obtain ⟨pmin, hpmin, pmax, hpmax, hlt, hbound, hP⟩ := resolveRound_no_ties g hnd hdist htwo
  have hpminP : pmin ∈ g.Players := ((mem_actives _ _).mp hpmin).1
  have hpmaxP : pmax ∈ g.Players := ((mem_actives _ _).mp hpmax).1
  have hab : pmin.ID ≠ pmax.ID := by
    intro e
    have : pmin = pmax := List.inj_on_of_nodup_map hnd hpminP hpmaxP e
    rw [this] at hlt
    omega
  unfold livesOf
  rw [hP]
  rw [loseLife_eq_map, loseLife_eq_map, getPlayer_map_keepID _ (loseStep_ID pmax.ID),
    getPlayer_map_keepID _ (loseStep_ID pmin.ID), getPlayer_of_mem _ hnd q hq]
  simp only [Option.map_some']
  rw [loseLife_twice_lives pmin.ID pmax.ID hab q]
  congr 1
  have hiff : ((q.ID = pmin.ID ∨ q.ID = pmax.ID) ∧ 0 < q.Lives) ↔
      (q ∈ actives g.Players ∧
        ((∀ r ∈ actives g.Players, q.Number ≤ r.Number)
          ∨ (∀ r ∈ actives g.Players, r.Number ≤ q.Number))) := by
    constructor
    · rintro ⟨hid, _⟩
      rcases hid with e | e
      · have : q = pmin := List.inj_on_of_nodup_map hnd hq hpminP e
        subst this
        exact ⟨hpmin, Or.inl (fun r hr => (hbound r hr).1)⟩
      · have : q = pmax := List.inj_on_of_nodup_map hnd hq hpmaxP e
        subst this
        exact ⟨hpmax, Or.inr (fun r hr => (hbound r hr).2)⟩
    · rintro ⟨hact, hext⟩
      refine ⟨?_, ((mem_actives _ _).mp hact).2.1⟩
      rcases hext with hmin | hmax
      · left
        have h1 := hmin pmin hpmin
        have h2 := (hbound q hact).1
        have : q = pmin := List.inj_on_of_nodup_map hdist hact hpmin (by omega)
        rw [this]
      · right
        have h1 := hmax pmax hpmax
        have h2 := (hbound q hact).2
        have : q = pmax := List.inj_on_of_nodup_map hdist hact hpmax (by omega)
        rw [this]
  by_cases c : (q.ID = pmin.ID ∨ q.ID = pmax.ID) ∧ 0 < q.Lives
  · rw [if_pos c, if_pos (hiff.mp c)]
  · rw [if_neg c, if_neg (fun h => c (hiff.mpr h))]

end wsmain

namespace game

theorem getPlayer_map_any (f : Player → Player) (hf : ∀ q, (f q).ID = q.ID) (ps : List Player)
    (id : String) : getPlayer (ps.map f) id = (getPlayer ps id).map f := by
  unfold getPlayer
  induction ps with
  | nil => rfl
  | cons q rest ih =>
    rw [List.map_cons, List.find?_cons, List.find?_cons, hf]
    by_cases h : q.ID = id
    · simp only [h, decide_True, Option.map_some']
    · simp only [h, decide_False]
      exact ih

theorem livesOf_EvaluateRound_absent (g : Game) (id : String)
    (h : getPlayer g.Players id = none) : livesOf (EvaluateRound g) id = none := by
  unfold livesOf
  rw [EvaluateRound_Players]
  unfold applyDecs
  rw [getPlayer_map_any resetPlayer (fun _ => rfl)]
  rw [getPlayer_map_any
    (fun p => ({ p with Lives := p.Lives - ((allDecs g.Players).count p.ID : Int) } : Player))
    (fun _ => rfl), h]
  rfl

theorem others_zero_of_distinct (g : Game)
    (hdist : ∀ p ∈ g.Players, ∀ p' ∈ g.Players, 0 < p.Lives → 0 < p'.Lives →
      p.Number = p'.Number → p = p')
    (p : Player) (hp : p ∈ g.Players) (hl : 0 < p.Lives) : others g p = 0 := by
  unfold others
  rw [List.length_eq_zero, List.filter_eq_nil_iff]
  intro q hq hc
  simp only [Bool.and_eq_true, decide_eq_true_eq] at hc
  obtain ⟨hne, hql, hqn⟩ := hc
  exact hne (congrArg Player.ID (hdist q hq p hp hql hl hqn))

theorem uniqueNumbers_eq_activeNumbers (g : Game)
    (hdist : ∀ p ∈ g.Players, ∀ p' ∈ g.Players, 0 < p.Lives → 0 < p'.Lives →
      p.Number = p'.Number → p = p') : uniqueNumbers g = activeNumbers g := by
  unfold uniqueNumbers activeNumbers
  apply List.filterMap_congr
  intro q hq
  by_cases hl : q.Lives > 0
  · rw [if_pos ⟨hl, others_zero_of_distinct g hdist q hq hl⟩, if_pos hl]
  · rw [if_neg (fun c => hl c.1), if_neg hl]

theorem mem_activeNumbers (g : Game) (k : Nat) :
    k ∈ activeNumbers g ↔ ∃ q ∈ g.Players, 0 < q.Lives ∧ q.Number = some k := by
  unfold activeNumbers
  simp only [List.mem_filterMap]
  constructor
  · rintro ⟨q, hq, h⟩
    by_cases hl : q.Lives > 0
    · rw [if_pos hl] at h
      exact ⟨q, hq, hl, h⟩
    · rw [if_neg hl] at h
      exact absurd h (by simp)
  · rintro ⟨q, hq, hl, hn⟩
    exact ⟨q, hq, by rw [if_pos hl]; exact hn⟩

theorem not_least_and_greatest (g : Game) (hwf : g.WF)
    (hdist : ∀ p ∈ g.Players, ∀ p' ∈ g.Players, 0 < p.Lives → 0 < p'.Lives →
      p.Number = p'.Number → p = p')
    (hsub : ∀ p ∈ g.Players, 0 < p.Lives → ∃ n, p.Number = some n)
    (htwo : 2 ≤ activePlayers g.Players) (p : Player) (hp : p ∈ g.Players) (n : Nat)
    (hl : 0 < p.Lives) (hn : p.Number = some n)
    (hmin : ∀ k ∈ activeNumbers g, n ≤ k) (hmax : ∀ k ∈ activeNumbers g, k ≤ n) : False := by
  have hall : ∀ q ∈ g.Players.filter (fun p => decide (p.Lives > 0)), q = p := by
    intro q hq
    simp only [List.mem_filter, decide_eq_true_eq] at hq
    obtain ⟨m, hm⟩ := hsub q hq.1 hq.2
    have hk : m ∈ activeNumbers g := (mem_activeNumbers g m).mpr ⟨q, hq.1, hq.2, hm⟩
    have e : m = n := Nat.le_antisymm (hmax m hk) (hmin m hk)
    exact hdist q hq.1 p hp hq.2 hl (by rw [hm, hn, e])
  have hnodup : (g.Players.filter (fun p => decide (p.Lives > 0))).Nodup :=
    List.Nodup.sublist (List.filter_sublist _) (List.Nodup.of_map Player.ID hwf)
  unfold activePlayers at htwo
  rcases hL : g.Players.filter (fun p => decide (p.Lives > 0)) with _ | ⟨a, _ | ⟨b, t⟩⟩
  · rw [hL] at htwo; simp at htwo
  · rw [hL] at htwo; simp at htwo
  · rw [hL] at hall hnodup
    have ea : a = p := hall a (by simp)
    have eb : b = p := hall b (by simp)
    rw [ea, eb] at hnodup
    simp at hnodup

/-- In a round without ties an active player loses one life if its number is the least or
the greatest of the numbers of the active players, and none otherwise. -/
theorem lives_no_ties (g : Game) (hwf : g.WF)
    (hdist : ∀ p ∈ g.Players, ∀ p' ∈ g.Players, 0 < p.Lives → 0 < p'.Lives →
      p.Number = p'.Number → p = p')
    (hsub : ∀ p ∈ g.Players, 0 < p.Lives → ∃ n, p.Number = some n)
    (htwo : 2 ≤ activePlayers g.Players) (p : Player) (hp : p ∈ g.Players) (n : Nat)
    (hl : 0 < p.Lives) (hn : p.Number = some n) :
    livesOf (EvaluateRound g) p.ID
      = some (if (∀ k ∈ activeNumbers g, n ≤ k) ∨ (∀ k ∈ activeNumbers g, k ≤ n)
              then p.Lives - 1 else p.Lives) := by
  rw [lives_unique g hwf p n hp hl hn (others_zero_of_distinct g hdist p hp hl),
    uniqueNumbers_eq_activeNumbers g hdist]
  congr 1
  by_cases c1 : ∀ k ∈ activeNumbers g, n ≤ k <;> by_cases c2 : ∀ k ∈ activeNumbers g, k ≤ n
  · exact absurd (not_least_and_greatest g hwf hdist hsub htwo p hp n hl hn c1 c2) id
  · rw [if_pos c1, if_neg c2, if_pos (Or.inl c1)]; ring
  · rw [if_neg c1, if_pos c2, if_pos (Or.inr c2)]; ring
  · rw [if_neg c1, if_neg c2, if_neg (fun h => h.elim c1 c2)]; ring

end game

namespace wsmain

theorem livesOf_resolveRound_absent (g : Game) (hnd : (g.Players.map Player.ID).Nodup)
    (hdist : ((actives g.Players).map Player.Number).Nodup)
    (htwo : 2 ≤ (actives g.Players).length) (id : String)
    (h : getPlayer g.Players id = none) : livesOf (resolveRound g) id = none := by
  obtain ⟨pmin, _, pmax, _, _, _, hP⟩ := resolveRound_no_ties g hnd hdist htwo
  unfold livesOf
  rw [hP, loseLife_eq_map, loseLife_eq_map, getPlayer_map_keepID _ (loseStep_ID pmax.ID),
    getPlayer_map_keepID _ (loseStep_ID pmin.ID), h]
  rfl

end wsmain

namespace game

theorem same_lookup (l1 : List Player) (l2 : List wsmain.Player)
    (h : List.Forall₂ samePlayerState l1 l2) (id : String) :
    (getPlayer l1 id = none ∧ wsmain.getPlayer l2 id = none) ∨
    ∃ p q, p ∈ l1 ∧ q ∈ l2 ∧ p.ID = id ∧ q.ID = id ∧ samePlayerState p q := by
  induction h with
  | nil => left; exact ⟨rfl, rfl⟩
  | @cons p q t1 t2 hpq _ ih =>
    by_cases hid : p.ID = id
    · right
      exact ⟨p, q, by simp, by simp, hid, hpq.1 ▸ hid, hpq⟩
    · rcases ih with ⟨n1, n2⟩ | ⟨p', q', hp', hq', e1, e2, hr⟩
      · left
        have hid2 : ¬ (q.ID = id) := fun c => hid (hpq.1.trans c)
        unfold getPlayer at n1 ⊢
        unfold wsmain.getPlayer at n2 ⊢
        rw [List.find?_cons, List.find?_cons]
        simp only [hid, hid2, decide_False]
        exact ⟨n1, n2⟩
      · right
        exact ⟨p', q', List.mem_cons_of_mem _ hp', List.mem_cons_of_mem _ hq', e1, e2, hr⟩

theorem same_ids (l1 : List Player) (l2 : List wsmain.Player)
    (h : List.Forall₂ samePlayerState l1 l2) :
    l1.map Player.ID = l2.map wsmain.Player.ID := by
  induction h with
  | nil => rfl
  | @cons p q t1 t2 hpq _ ih => rw [List.map_cons, List.map_cons, ih, hpq.1]

theorem same_left (l1 : List Player) (l2 : List wsmain.Player)
    (h : List.Forall₂ samePlayerState l1 l2) (p : Player) (hp : p ∈ l1) :
    ∃ q ∈ l2, samePlayerState p q := by
  induction h with
  | nil => simp at hp
  | @cons p0 q0 t1 t2 hpq _ ih =>
    rcases List.mem_cons.mp hp with e | e
    · exact ⟨q0, by simp, e ▸ hpq⟩
    · obtain ⟨q, hq, hr⟩ := ih e
      exact ⟨q, List.mem_cons_of_mem _ hq, hr⟩

theorem same_right (l1 : List Player) (l2 : List wsmain.Player)
    (h : List.Forall₂ samePlayerState l1 l2) (q : wsmain.Player) (hq : q ∈ l2) :
    ∃ p ∈ l1, samePlayerState p q := by
  induction h with
  | nil => simp at hq
  | @cons p0 q0 t1 t2 hpq _ ih =>
    rcases List.mem_cons.mp hq with e | e
    · exact ⟨p0, by simp, e ▸ hpq⟩
    · obtain ⟨p, hp, hr⟩ := ih e
      exact ⟨p, List.mem_cons_of_mem _ hp, hr⟩

theorem same_actives_length (l1 : List Player) (l2 : List wsmain.Player)
    (h : List.Forall₂ samePlayerState l1 l2) :
    (wsmain.actives l2).length = activePlayers l1 := by
  induction h with
  | nil => rfl
  | @cons p q t1 t2 hpq _ ih =>
    unfold activePlayers at ih ⊢
    by_cases hl : 0 < p.Lives
    · obtain ⟨n, _, hplayed, _⟩ := hpq.2.2 hl
      have hq : q.Lives > 0 ∧ q.HasPlayed = true := ⟨by rw [← hpq.2.1]; exact hl, hplayed⟩
      rw [wsmain.actives_cons_pos q t2 hq, List.filter_cons]
      simp only [gt_iff_lt, hl, decide_True, if_true, List.length_cons, ih]
    · have hq : ¬ (q.Lives > 0 ∧ q.HasPlayed = true) := by
        intro c
        have := c.1
        rw [← hpq.2.1] at this
        exact hl this
      rw [wsmain.actives_cons_neg q t2 hq, List.filter_cons]
      simp only [gt_iff_lt, hl, decide_False]
      exact ih

end game

namespace game

theorem active_numbers_same (g : Game) (h : wsmain.Game) (hsame : SameRound g h)
    (Q : Int → Prop) :
    (∀ k ∈ activeNumbers g, Q (k : Int)) ↔ (∀ r ∈ wsmain.actives h.Players, Q r.Number) := by
  constructor
  · intro hall r hr
    obtain ⟨hr1, hr2, _⟩ := (wsmain.mem_actives _ _).mp hr
    obtain ⟨p, hp, hpr⟩ := same_right _ _ hsame r hr1
    have hl : 0 < p.Lives := by rw [hpr.2.1]; exact hr2
    obtain ⟨m, hm, _, hrm⟩ := hpr.2.2 hl
    rw [hrm]
    exact hall m ((mem_activeNumbers g m).mpr ⟨p, hp, hl, hm⟩)
  · intro hall k hk
    obtain ⟨p, hp, hl, hn⟩ := (mem_activeNumbers g k).mp hk
    obtain ⟨q, hq, hpq⟩ := same_left _ _ hsame p hp
    obtain ⟨m, hm, hplayed, hqm⟩ := hpq.2.2 hl
    have e : m = k := by
      rw [hn] at hm
      exact (Option.some.inj hm).symm
    have hqa : q ∈ wsmain.actives h.Players :=
      (wsmain.mem_actives _ _).mpr ⟨hq, by rw [← hpq.2.1]; exact hl, hplayed⟩
    have := hall q hqa
    rw [hqm, e] at this
    exact this

theorem same_distinct (g : Game) (h : wsmain.Game) (hwf : g.WF) (hsame : SameRound g h)
    (hdist : ∀ p ∈ g.Players, ∀ p' ∈ g.Players, 0 < p.Lives → 0 < p'.Lives →
      p.Number = p'.Number → p = p') :
    (h.Players.map wsmain.Player.ID).Nodup ∧
    ((wsmain.actives h.Players).map wsmain.Player.Number).Nodup := by
  have hnd : (h.Players.map wsmain.Player.ID).Nodup := by
    rw [← same_ids _ _ hsame]; exact hwf
  refine ⟨hnd, ?_⟩
  have hA : (wsmain.actives h.Players).Nodup := by
    unfold wsmain.actives
    exact List.Nodup.sublist (List.filter_sublist _) (List.Nodup.of_map _ hnd)
  apply List.Nodup.map_on _ hA
  intro x hx y hy hxy
  obtain ⟨hx1, hx2, _⟩ := (wsmain.mem_actives _ _).mp hx
  obtain ⟨hy1, hy2, _⟩ := (wsmain.mem_actives _ _).mp hy
  obtain ⟨p, hp, hpx⟩ := same_right _ _ hsame x hx1
  obtain ⟨p', hp', hpy⟩ := same_right _ _ hsame y hy1
  have hl : 0 < p.Lives := by rw [hpx.2.1]; exact hx2
  have hl' : 0 < p'.Lives := by rw [hpy.2.1]; exact hy2
  obtain ⟨m, hm, _, hxm⟩ := hpx.2.2 hl
  obtain ⟨m', hm', _, hym⟩ := hpy.2.2 hl'
  have e : m = m' := by
    rw [hxm, hym] at hxy
    exact Int.ofNat.inj hxy
  have epp : p = p' := hdist p hp p' hp' hl hl' (by rw [hm, hm', e])
  have eid : x.ID = y.ID := by rw [← hpx.1, ← hpy.1, epp]
  exact List.inj_on_of_nodup_map hnd hx1 hy1 eid

/-- C18. The two resolution variants agree when there are no ties: for every round in which
at least two active players (Lives > 0) have all submitted pairwise different numbers,
`EvaluateRound` of package `game` and `resolveRound` of `main.go`, started from the same
lives and numbers, leave every player with the same number of lives: the holder of the
least number and the holder of the greatest one fewer, everyone else unchanged. -/
theorem EvaluateRound_agrees_with_resolveRound (g : Game) (h : wsmain.Game) (hwf : g.WF)
    (hsame : SameRound g h)
    (hdist : ∀ p ∈ g.Players, ∀ p' ∈ g.Players, 0 < p.Lives → 0 < p'.Lives →
      p.Number = p'.Number → p = p')
    (htwo : 2 ≤ activePlayers g.Players) :
    (∀ id, livesOf (EvaluateRound g) id = wsmain.livesOf (wsmain.resolveRound h) id) ∧
    (∀ p ∈ g.Players, ∀ n, 0 < p.Lives → p.Number = some n →
      livesOf (EvaluateRound g) p.ID
        = some (if (∀ k ∈ activeNumbers g, n ≤ k) ∨ (∀ k ∈ activeNumbers g, k ≤ n)
                then p.Lives - 1 else p.Lives)) ∧
    (∀ p ∈ g.Players, p.Lives ≤ 0 → livesOf (EvaluateRound g) p.ID = some p.Lives) := by
  have hsub : ∀ p ∈ g.Players, 0 < p.Lives → ∃ n, p.Number = some n := by
    intro p hp hl
    obtain ⟨q, _, hpq⟩ := same_left _ _ hsame p hp
    obtain ⟨n, hn, _⟩ := hpq.2.2 hl
    exact ⟨n, hn⟩
  obtain ⟨hndh, hdisth⟩ := same_distinct g h hwf hsame hdist
  have htwoh : 2 ≤ (wsmain.actives h.Players).length := by
    rw [same_actives_length _ _ hsame]; exact htwo
  have part2 : ∀ p ∈ g.Players, ∀ n, 0 < p.Lives → p.Number = some n →
      livesOf (EvaluateRound g) p.ID
        = some (if (∀ k ∈ activeNumbers g, n ≤ k) ∨ (∀ k ∈ activeNumbers g, k ≤ n)
                then p.Lives - 1 else p.Lives) :=
    fun p hp n hl hn => lives_no_ties g hwf hdist hsub htwo p hp n hl hn
  have part3 : ∀ p ∈ g.Players, p.Lives ≤ 0 →
      livesOf (EvaluateRound g) p.ID = some p.Lives :=
    fun p hp hl => lives_inactive g hwf p hp (Or.inl hl)
  refine ⟨?_, part2, part3⟩
  intro id
  rcases same_lookup _ _ hsame id with ⟨n1, n2⟩ | ⟨p, q, hp, hq, e1, e2, hpq⟩
  · rw [livesOf_EvaluateRound_absent g id n1,
      wsmain.livesOf_resolveRound_absent h hndh hdisth htwoh id n2]
  · have hW := wsmain.resolveRound_lives h hndh hdisth htwoh q hq
    rw [e2] at hW
    rw [hW]
    by_cases hl : 0 < p.Lives
    · obtain ⟨n, hn, hplayed, hqn⟩ := hpq.2.2 hl
      have hG := part2 p hp n hl hn
      rw [e1] at hG
      rw [hG]
      have hqa : q ∈ wsmain.actives h.Players :=
        (wsmain.mem_actives _ _).mpr ⟨hq, by rw [← hpq.2.1]; exact hl, hplayed⟩
      have hmin : (∀ k ∈ activeNumbers g, n ≤ k)
          ↔ (∀ r ∈ wsmain.actives h.Players, q.Number ≤ r.Number) := by
        rw [hqn, ← active_numbers_same g h hsame (fun x => (n : Int) ≤ x)]
        constructor
        · intro a k hk; exact Int.ofNat_le.mpr (a k hk)
        · intro a k hk; exact Int.ofNat_le.mp (a k hk)
      have hmax : (∀ k ∈ activeNumbers g, k ≤ n)
          ↔ (∀ r ∈ wsmain.actives h.Players, r.Number ≤ q.Number) := by
        rw [hqn, ← active_numbers_same g h hsame (fun x => x ≤ (n : Int))]
        constructor
        · intro a k hk; exact Int.ofNat_le.mpr (a k hk)
        · intro a k hk; exact Int.ofNat_le.mp (a k hk)
      congr 1
      rw [← hpq.2.1]
      by_cases c : (∀ k ∈ activeNumbers g, n ≤ k) ∨ (∀ k ∈ activeNumbers g, k ≤ n)
      · have c2 : q ∈ wsmain.actives h.Players ∧
            ((∀ r ∈ wsmain.actives h.Players, q.Number ≤ r.Number)
              ∨ (∀ r ∈ wsmain.actives h.Players, r.Number ≤ q.Number)) :=
          ⟨hqa, c.imp hmin.mp hmax.mp⟩
        rw [if_pos c, if_pos c2]
      · have c2 : ¬ (q ∈ wsmain.actives h.Players ∧
            ((∀ r ∈ wsmain.actives h.Players, q.Number ≤ r.Number)
              ∨ (∀ r ∈ wsmain.actives h.Players, r.Number ≤ q.Number))) :=
          fun d => c (d.2.imp hmin.mpr hmax.mpr)
        rw [if_neg c, if_neg c2]
    · have hG := part3 p hp (by omega)
      rw [e1] at hG
      rw [hG]
      have hqa : ¬ (q ∈ wsmain.actives h.Players ∧
          ((∀ r ∈ wsmain.actives h.Players, q.Number ≤ r.Number)
            ∨ (∀ r ∈ wsmain.actives h.Players, r.Number ≤ q.Number))) := by
        intro d
        have := ((wsmain.mem_actives _ _).mp d.1).2.1
        rw [← hpq.2.1] at this
        exact hl this
      rw [if_neg hqa, hpq.2.1]

/-- The round 1, 5, 9 with an eliminated fourth player: both variants end at 6, 7, 0, 0. -/
theorem EvaluateRound_agrees_with_resolveRound_witness :
    noTies.WF ∧ 2 ≤ activePlayers noTies.Players ∧
    (∀ id, livesOf (EvaluateRound noTies) id
      = wsmain.livesOf (wsmain.resolveRound wsmain.noTies) id) ∧
    (EvaluateRound noTies).Players.map Player.Lives = [6, 7, 0, 0] ∧
    (wsmain.resolveRound wsmain.noTies).Players.map wsmain.Player.Lives = [6, 7, 0, 0] :=
  ⟨by decide, by decide,
    (EvaluateRound_agrees_with_resolveRound noTies wsmain.noTies (by decide)
      (List.Forall₂.cons ⟨rfl, rfl, fun _ => ⟨1, rfl, rfl, rfl⟩⟩
        (List.Forall₂.cons ⟨rfl, rfl, fun _ => ⟨5, rfl, rfl, rfl⟩⟩
          (List.Forall₂.cons ⟨rfl, rfl, fun _ => ⟨9, rfl, rfl, rfl⟩⟩
            (List.Forall₂.cons ⟨rfl, rfl, fun hc => absurd hc (by decide)⟩
              List.Forall₂.nil))))
      (by decide) (by decide)).1,
    by decide, by decide⟩

end game
